import Mathlib

/-!
Verification of the stateful-viewers evaluation harness.

A shallow embedding, in Lean, of the core of the `stateful-viewers`
repository: the response parser `parse_reflection_and_state` and the
gallery-walk loop `run_gallery_walk` from `research/scripts/run_stateful.py`,
the prompt reconstruction `_rebuild_prompts_for_eval` and the judge-context
builder `_build_sequence_context` from the same file, the judge evaluator
`evaluate_results` / `_parse_judge_response` from
`research/eval_pipeline/evaluator.py`, and the score aggregation of
`research/eval_pipeline/summarize.py`.

Modelling conventions:

* Python strings are modelled as Lean `String` / `List Char`.  The character
  classes of the source regexes (`\s`, `\d`) and `str.strip()` are modelled
  over their ASCII subsets, which is the alphabet used by the prompts
  and markers of the repository.
* Each regex of the source is hand-compiled to an explicit scanning function
  with Python `re.search` semantics (leftmost match; greedy/lazy quantifier
  behaviour; `$` matching end-of-line under `re.MULTILINE`, end-of-text
  otherwise — the stripped input has no trailing newline).
* `str.format` on the templates of the repository (which use only the named
  fields substituted by the source) is modelled by literal placeholder
  replacement, and Python truthiness of optional captions by
  "present and non-empty".
* Model calls are external effects; a provider is modelled as a function
  from the data the source passes to it (image, user prompt) to the
  response.  Python floats in the aggregator are modelled as exact
  rationals, with `round(x, 2)` as round-half-to-even at two decimals.
-/

namespace StatefulViewers

/-- ASCII whitespace, the `\s` class of the source regexes and the character
set stripped by `str.strip()` (restricted to ASCII). -/
def isPySpace (c : Char) : Bool :=
  c = ' ' || c = '\t' || c = '\n' || c = '\r' || c = '\x0b' || c = '\x0c'

/-- `str.strip()` on a character list (ASCII whitespace). -/
def pyStripL (l : List Char) : List Char :=
  ((l.dropWhile isPySpace).reverse.dropWhile isPySpace).reverse

/-- `str.strip()` on a string. -/
def pyStrip (s : String) : String :=
  ⟨pyStripL s.data⟩

/-- Case-insensitive character comparison, as used by `re.IGNORECASE`
(ASCII lowering, matching `Char.toLower`). -/
def charCI (a b : Char) : Bool :=
  a.toLower = b.toLower

/-- Match a literal `pat` case-insensitively at the head of `s`; return the
remainder after the literal on success. -/
def dropPrefixCI : List Char → List Char → Option (List Char)
  | [], s => some s
  | _ :: _, [] => none
  | p :: ps, c :: cs => if charCI c p then dropPrefixCI ps cs else none

/-- Match a literal `pat` case-sensitively at the head of `s`; return the
remainder after the literal on success. -/
def dropPrefixCS : List Char → List Char → Option (List Char)
  | [], s => some s
  | _ :: _, [] => none
  | p :: ps, c :: cs => if c = p then dropPrefixCS ps cs else none

/-- Drop one leading `*` if present. -/
def dropStar1 : List Char → List Char
  | '*' :: t => t
  | l => l

/-- Greedily drop up to two leading `*` characters: the `\*{0,2}` pieces of
the canonical-marker regexes. -/
def dropStars2 (l : List Char) : List Char :=
  dropStar1 (dropStar1 l)

/-- Greedily drop leading whitespace: the `\s*` pieces of the regexes. -/
def dropWs (l : List Char) : List Char :=
  l.dropWhile isPySpace

/-- Drop one leading `:` if present: the `:?` pieces of the regexes. -/
def dropColonOpt : List Char → List Char
  | ':' :: t => t
  | l => l

/-- The capture start of `\*{0,2}LIT\*{0,2}\s*:?\s*\n?` matched at the head
of `s` (the `\n?` is subsumed by the greedy `\s*`): remainder on success. -/
def canonCaptureStart (lit : List Char) (s : List Char) : Option (List Char) :=
  match dropPrefixCI lit (dropStars2 s) with
  | none => none
  | some r => some (dropWs (dropColonOpt (dropWs (dropStars2 r))))

/-- The capture start of `LIT\s*\n?` matched at the head of `s`
(the `\n?` is subsumed by the greedy `\s*`): remainder on success. -/
def legacyCaptureStart (lit : List Char) (s : List Char) : Option (List Char) :=
  match dropPrefixCI lit s with
  | none => none
  | some r => some (dropWs r)

/-- Scan the leading whitespace run of the input; return the suffix right
after the *last* newline of the run, or the accumulator if the run contains
no newline.  This is the backtracking behaviour of greedy `\s*`
followed by a mandatory `\n`. -/
def wsRunAfterLastNl : List Char → Option (List Char) → Option (List Char)
  | [], acc => acc
  | c :: t, acc =>
    if isPySpace c then wsRunAfterLastNl t (if c = '\n' then some t else acc)
    else acc

/-- The capture start of `LIT\s*\n` (mandatory newline) matched at the head
of `s`: remainder on success. -/
def oldCaptureStart (lit : List Char) (s : List Char) : Option (List Char) :=
  match dropPrefixCI lit s with
  | none => none
  | some r => wsRunAfterLastNl r none

/-- `re.search` position scan: return the result of `m` at the leftmost
position of `s` where it succeeds (positions include the end of `s`). -/
def searchPos (m : List Char → Option (List Char)) : List Char → Option (List Char)
  | [] => m []
  | c :: t =>
    match m (c :: t) with
    | some r => some r
    | none => searchPos m t

/-- A lazy capture `([\s\S]*?)` bounded by the first position where `stop`
holds (all the `stop`s used below hold at `[]`, as `$` always matches at the
end of the input). -/
def captureUntil (stop : List Char → Bool) : List Char → List Char
  | [] => []
  | c :: t => if stop (c :: t) then [] else c :: captureUntil stop t

/-- A lazy capture `([\s\S]*?)` bounded by a `MULTILINE` `$`: everything up
to the first newline or the end of the input. -/
def captureToEol (l : List Char) : List Char :=
  l.takeWhile fun c => ¬ (c = '\n')

/-- The lookahead `(?=\n\s*\*{0,2}LIT|$)` (the trailing `\*{0,2}` of the
source lookahead always matches and is dropped); `$` is end-of-input since
the scanned text is stripped. -/
def canonLookahead (lit : List Char) : List Char → Bool
  | [] => true
  | '\n' :: r => (dropPrefixCI lit (dropStars2 (dropWs r))).isSome
  | _ => false

/-- The lookahead `(?=\n\s*LIT|$)`. -/
def legacyLookahead (lit : List Char) : List Char → Bool
  | [] => true
  | '\n' :: r => (dropPrefixCI lit (dropWs r)).isSome
  | _ => false

def reflectionLit : List Char := "[REFLECTION]".data

def stateLit : List Char := "[STATE]".data

def legacyReflectionLit : List Char := "Reflection:".data

def legacyStateLit : List Char := "State:".data

def reactionLit : List Char := "Reaction:".data

def internalStateLit : List Char := "Internal state".data

def internalStateFullLit : List Char := "Internal state after this image:".data

/-- Capture start of the canonical `[REFLECTION]` marker, leftmost. -/
def canonReflMatch (raw : List Char) : Option (List Char) :=
  searchPos (canonCaptureStart reflectionLit) raw

/-- Capture start of the canonical `[STATE]` marker, leftmost. -/
def canonStateMatch (raw : List Char) : Option (List Char) :=
  searchPos (canonCaptureStart stateLit) raw

/-- Capture start of the legacy `Reflection:` marker, leftmost. -/
def legacyReflMatch (raw : List Char) : Option (List Char) :=
  searchPos (legacyCaptureStart legacyReflectionLit) raw

/-- Capture start of the legacy `State:` marker, leftmost. -/
def legacyStateMatch (raw : List Char) : Option (List Char) :=
  searchPos (legacyCaptureStart legacyStateLit) raw

/-- Capture start of the oldest `Reaction:` marker, leftmost. -/
def oldReactionMatch (raw : List Char) : Option (List Char) :=
  searchPos (oldCaptureStart reactionLit) raw

/-- Capture start of the oldest `Internal state after this image:` marker,
leftmost. -/
def oldStateMatch (raw : List Char) : Option (List Char) :=
  searchPos (oldCaptureStart internalStateFullLit) raw

/-- Embedding of `parse_reflection_and_state`
(`research/scripts/run_stateful.py`): cascade of the canonical
`[REFLECTION]/[STATE]` regex pair, the legacy `Reflection:/State:` pair, and
the oldest `Reaction:` / `Internal state after this image:` matchers, whose
two groups the source uses independently (`old_reaction.group(1) if
old_reaction else raw`, `old_state.group(1) if old_state else ""`). -/
def parse_reflection_and_state (text : String) : String × String :=
  let raw := pyStripL text.data
  match canonReflMatch raw, canonStateMatch raw with
  | some rc, some sc =>
    (⟨pyStripL (captureUntil (canonLookahead stateLit) rc)⟩,
     ⟨pyStripL (captureToEol sc)⟩)
  | _, _ =>
    match legacyReflMatch raw, legacyStateMatch raw with
    | some rc, some sc =>
      (⟨pyStripL (captureUntil (legacyLookahead legacyStateLit) rc)⟩,
       ⟨pyStripL (captureToEol sc)⟩)
    | _, _ =>
      let r := match oldReactionMatch raw with
        | some rc => pyStripL (captureUntil (legacyLookahead internalStateLit) rc)
        | none => raw
      let s := match oldStateMatch raw with
        | some sc => pyStripL (captureToEol sc)
        | none => []
      (⟨r⟩, ⟨s⟩)

/-! ## Judge-response parsing (`_parse_judge_response`, evaluator.py) -/

def scoreLit : List Char := "SCORE:".data

def rationaleLit : List Char := "RATIONALE:".data

/-- Leftmost match of `SCORE:\s*(\d)` (case-sensitive, no `MULTILINE`):
scan for `SCORE:` followed by optional whitespace and a digit; the captured
value of the captured digit. -/
def findScore : List Char → Option Nat
  | [] => none
  | c :: t =>
    match dropPrefixCS scoreLit (c :: t) with
    | some r =>
      match dropWs r with
      | d :: _ => if d.isDigit then some (d.toNat - '0'.toNat) else findScore t
      | [] => findScore t
    | none => findScore t

/-- Leftmost match of `RATIONALE:\s*(.+)` with `DOTALL`: scan for
`RATIONALE:` with a non-empty remainder; the group is the remainder with
its leading whitespace consumed by `\s*` (except that `.+` keeps at least
one character), which after the `.strip()` of the source equals the stripped
remainder. -/
def findRationale : List Char → Option (List Char)
  | [] => none
  | c :: t =>
    match dropPrefixCS rationaleLit (c :: t) with
    | some r => if r.isEmpty then findRationale t else some r
    | none => findRationale t

/-- Embedding of `_parse_judge_response` (evaluator.py): the matched digit
clamped by `max(1, min(5, score))`, sentinel `0` when no match; the
rationale is the stripped text after `RATIONALE:` when matched, else the
whole stripped reply. -/
def parse_judge_response (text : String) : Int × String :=
  let score : Int :=
    match findScore text.data with
    | some d => max 1 (min 5 (d : Int))
    | none => 0
  let rationale : String :=
    match findRationale text.data with
    | some r => ⟨pyStripL r⟩
    | none => ⟨pyStripL text.data⟩
  (score, rationale)

/-! ## Data model (types.py) -/

/-- `ImageInput` (types.py): `caption` is `str | None`. -/
structure ImageInput where
  id : String
  source : String
  caption : Option String := none
deriving Repr, DecidableEq

/-- `ProviderResponse` (types.py). -/
structure ProviderResponse where
  content : String
  prompt_tokens : Int := 0
  completion_tokens : Int := 0
  latency_ms : Int := 0
deriving Repr, DecidableEq

/-- `TokenUsage` (types.py). -/
structure TokenUsage where
  prompt_tokens : Int := 0
  completion_tokens : Int := 0
deriving Repr, DecidableEq

/-- `RunResult` (types.py).  The uuid/timestamp default factories are
external nondeterminism; results constructed by the embedded walk leave
them at sentinel defaults, and no verified claim depends on them. -/
structure RunResult where
  id : String := ""
  prompt_variant_id : String := ""
  image_id : String := ""
  provider : String := ""
  model : String := ""
  raw_response : String := ""
  timestamp : String := ""
  latency_ms : Int := 0
  token_usage : TokenUsage := {}
deriving Repr, DecidableEq

/-- `PromptVariant` (types.py). -/
structure PromptVariant where
  id : String
  name : String
  system_prompt : String
  user_prompt : String
  judge_context : String := ""
deriving Repr, DecidableEq

/-- `EvalCriterion` (types.py). -/
structure EvalCriterion where
  id : String
  name : String
  description : String
  scoring_prompt : String
  requires_image : Bool := false
deriving Repr, DecidableEq

/-- `EvalScore` (types.py); the uuid `id` default is omitted as above. -/
structure EvalScore where
  run_result_id : String := ""
  criterion_id : String := ""
  score : Int := 0
  rationale : String := ""
  judge_model : String := ""
  source : String := "llm"
deriving Repr, DecidableEq

/-! ## Template substitution (`str.format` on the walk templates) -/

/-- One pass of Python `str.replace` restricted to a non-empty pattern
`p0 :: ps`: non-overlapping, left-to-right.  The fuel argument (instantiated
with the input length, which every recursive call strictly decreases) makes
the recursion structural. -/
def replaceL (fuel : Nat) (p0 : Char) (ps rep : List Char) :
    List Char → List Char
  | [] => []
  | c :: t =>
    match fuel with
    | 0 => c :: t
    | fuel + 1 =>
      if c = p0 then
        match dropPrefixCS ps t with
        | some r => rep ++ replaceL fuel p0 ps rep r
        | none => c :: replaceL fuel p0 ps rep t
      else c :: replaceL fuel p0 ps rep t

/-- Python `str.replace pat rep` for a literal pattern (an empty pattern
never occurs in the substitutions of the source). -/
def pyReplace (s pat rep : String) : String :=
  match pat.data with
  | [] => s
  | p0 :: ps => ⟨replaceL s.data.length p0 ps rep.data s.data⟩

/-- `user_prompt_template.format(profile=..., style=..., current_state=...)`
as used by `run_gallery_walk` and `_rebuild_prompts_for_eval`: the
templates of the repository use exactly these named fields. -/
def formatWalkTemplate (tmpl profile style current_state : String) : String :=
  pyReplace (pyReplace (pyReplace tmpl "\x7bprofile\x7d" profile)
    "\x7bstyle\x7d" style) "\x7bcurrent_state\x7d" current_state

/-! ## Gallery walk (`run_gallery_walk`, run_stateful.py) -/

/-- The user prompt assembled for one step: template substitution, then the
caption annotation appended when `image.caption` is truthy (present and
non-empty), exactly the `if image.caption:` of the source. -/
def assembleUserPrompt (tmpl profile style current_state : String)
    (image : ImageInput) : String :=
  let p := formatWalkTemplate tmpl profile style current_state
  match image.caption with
  | some c => if c = "" then p else p ++ "\n\nThe image caption: \"" ++ c ++ "\""
  | none => p

/-- A provider (`VisionProvider.generate`) as an external collaborator: a
function from the data the walk passes to it that varies per call — the
image and the assembled user prompt — to its response. -/
def Provider : Type := ImageInput → String → ProviderResponse

/-- The body of the walk loop: results and assembled prompts accumulated
over a list of images, threading `current_state`.  Mirrors the loop of
`run_gallery_walk`: assemble the prompt, record it, call the provider,
parse the response, carry the state forward unless a non-empty state was
parsed, append a `RunResult`. -/
def walkSteps (variant_id : String) (config_provider config_model : String)
    (tmpl profile style : String) (provider : Provider) :
    String → List ImageInput → List RunResult × List String
  | _, [] => ([], [])
  | current_state, image :: rest =>
    let user_prompt := assembleUserPrompt tmpl profile style current_state image
    let resp := provider image user_prompt
    let parsed := parse_reflection_and_state resp.content
    let new_state := parsed.2
    let next_state := if new_state = "" then current_state else new_state
    let result : RunResult :=
      { prompt_variant_id := variant_id ++ "/" ++ image.id
        image_id := image.id
        provider := config_provider
        model := config_model
        raw_response := resp.content
        latency_ms := resp.latency_ms
        token_usage :=
          { prompt_tokens := resp.prompt_tokens
            completion_tokens := resp.completion_tokens } }
    let tail := walkSteps variant_id config_provider config_model
      tmpl profile style provider next_state rest
    (result :: tail.1, user_prompt :: tail.2)

/-- Embedding of `run_gallery_walk`: returns `(results, assembled_prompts)`
in step order, starting from the resolved initial state. -/
def run_gallery_walk (variant_id : String) (config_provider config_model : String)
    (tmpl profile style initial_state : String) (provider : Provider)
    (images : List ImageInput) : List RunResult × List String :=
  walkSteps variant_id config_provider config_model tmpl profile style provider
    initial_state images

/-- The carried `current_state` after walking a list of images (the value of
the state variable when the loop has consumed them all). -/
def walkFinalState (tmpl profile style : String) (provider : Provider) :
    String → List ImageInput → String
  | current_state, [] => current_state
  | current_state, image :: rest =>
    let user_prompt := assembleUserPrompt tmpl profile style current_state image
    let resp := provider image user_prompt
    let new_state := (parse_reflection_and_state resp.content).2
    let next_state := if new_state = "" then current_state else new_state
    walkFinalState tmpl profile style provider next_state rest

/-! ## Prompt reconstruction (`_rebuild_prompts_for_eval`, run_stateful.py) -/

/-- An assembled-prompt record as written by `save_run` /
`main` (run_stateful.py): one per result, pairing the result with the
verbatim `user_prompt` string recorded during the walk. -/
structure PromptRecord where
  result_id : String
  prompt_variant_id : String
  system_prompt : String
  user_prompt : String
deriving Repr, DecidableEq

/-- The per-step prompt records built by `main` from the output of a walk:
`zip(results, assembled_prompts)`. -/
def assembledPromptRecords (system_prompt : String)
    (results : List RunResult) (prompts : List String) : List PromptRecord :=
  (results.zip prompts).map fun rp =>
    { result_id := rp.1.id
      prompt_variant_id := rp.1.prompt_variant_id
      system_prompt := system_prompt
      user_prompt := rp.2 }

/-- Tier-1 reconstruction (`_rebuild_prompts_for_eval`, branch with
`assembled_prompts.json` present): each saved record is used unmodified,
`user_prompt = rec["user_prompt"]`. -/
def rebuildTier1UserPrompts (records : List PromptRecord) : List String :=
  records.map fun rec => rec.user_prompt

/-- Tier-2 reconstruction (`_rebuild_prompts_for_eval`, branch with only
`artifacts.json`): replay the parser over each raw response in order,
recomputing the prompt of each step by template substitution from the artifacts
— without the caption annotation step of the original walk. -/
def rebuildTier2UserPrompts (tmpl profile style : String) :
    String → List RunResult → List String
  | _, [] => []
  | current_state, r :: rest =>
    let assembled := formatWalkTemplate tmpl profile style current_state
    let new_state := (parse_reflection_and_state r.raw_response).2
    let next_state := if new_state = "" then current_state else new_state
    assembled :: rebuildTier2UserPrompts tmpl profile style next_state rest

/-! ## Judge context (`_build_sequence_context`, run_stateful.py) -/

/-- `img.caption or img.id`: Python truthiness. -/
def captionOr (img : ImageInput) : String :=
  match img.caption with
  | some c => if c = "" then img.id else c
  | none => img.id

/-- One listing line `  {i+1}. {id}: "{caption}"`. -/
def sequenceLine (i : Nat) (img : ImageInput) : String :=
  "  " ++ toString (i + 1) ++ ". " ++ img.id ++ ": \"" ++ captionOr img ++ "\""

/-- Embedding of `_build_sequence_context`: empty for index 0, else a
header, one line per prior image in order, and a two-line marker for the
current image; `none` models the `IndexError` of `images[current_index]`
out of range. -/
def build_sequence_context (images : List ImageInput) (current_index : Nat) :
    Option String :=
  if current_index = 0 then some ""
  else
    match images.get? current_index with
    | none => none
    | some current =>
      let lines := "Images shown before the current one:" ::
        ((List.range current_index).map fun i =>
          sequenceLine i (images.getD i ⟨"", "", none⟩)) ++
        ["Current image (" ++ toString (current_index + 1) ++ " of " ++
          toString images.length ++ "):",
         sequenceLine current_index current]
      some (String.intercalate "\n" lines)

/-! ## Judge evaluator (`evaluate_results`, evaluator.py) -/

/-- `JUDGE_SYSTEM_PROMPT` (evaluator.py). -/
def JUDGE_SYSTEM_PROMPT : String :=
  "You are an expert evaluator assessing LLM-generated responses to images.\n" ++
  "You will be given:\n" ++
  "- The prompt that was sent to the model\n" ++
  "- The model\x27s response\n" ++
  "- A specific evaluation criterion with a scoring rubric\n\n" ++
  "Score the response on a scale of 1-5 according to the criterion.\n\n" ++
  "You MUST respond in exactly this format:\n\n" ++
  "SCORE: <number 1-5>\n" ++
  "RATIONALE: <2-4 sentences explaining the score>\n\n" ++
  "Nothing else. No preamble, no markdown."

/-- `JUDGE_USER_TEMPLATE` (evaluator.py). -/
def JUDGE_USER_TEMPLATE : String :=
  "## Prompt sent to the model\n\nSystem: \x7bsystem_prompt\x7d\n\n" ++
  "User: \x7buser_prompt\x7d\n\n## Model response\n\n\x7bresponse\x7d\n\n" ++
  "## Evaluation criterion: \x7bcriterion_name\x7d\n\n" ++
  "\x7bcriterion_description\x7d\n\n\x7bscoring_prompt\x7d\n\n" ++
  "Score this response (1-5) according to the criterion above."

/-- `JUDGE_USER_TEMPLATE.format(...)` as called by `evaluate_results`. -/
def judgeUserPrompt (variant : PromptVariant) (result : RunResult)
    (criterion : EvalCriterion) : String :=
  pyReplace (pyReplace (pyReplace (pyReplace (pyReplace (pyReplace
    JUDGE_USER_TEMPLATE
    "\x7bsystem_prompt\x7d" variant.system_prompt)
    "\x7buser_prompt\x7d" variant.user_prompt)
    "\x7bresponse\x7d" result.raw_response)
    "\x7bcriterion_name\x7d" criterion.name)
    "\x7bcriterion_description\x7d" criterion.description)
    "\x7bscoring_prompt\x7d" criterion.scoring_prompt

/-- The judge model as an external collaborator: its `name` field and
its `generate_text(system_prompt, user_prompt, ...)` reply content
(temperature `0.3` and `max_tokens=512` are fixed by the source). -/
structure Judge where
  name : String
  generate_text : String → String → String

/-- `prompt_map = {p.id: p for p in prompts}` then `.get`: a Python dict
comprehension keeps the last entry for a duplicated key. -/
def promptMapGet (prompts : List PromptVariant) (pid : String) :
    Option PromptVariant :=
  prompts.reverse.find? fun p => p.id = pid

/-- Embedding of `evaluate_results` (evaluator.py, the version in this
repository): for each result whose `prompt_variant_id` is found in the
prompt map, one judge call and one `EvalScore` per criterion; results with
no matching prompt variant are skipped.  The return value is the flat list
of scores — this `evaluate_results` takes no image map, attaches no image,
and returns no judge-prompt list. -/
def evaluate_results (results : List RunResult) (prompts : List PromptVariant)
    (criteria : List EvalCriterion) (judge : Judge)
    (judge_model_name : String := "") : List EvalScore :=
  match results with
  | [] => []
  | result :: rest =>
    (match promptMapGet prompts result.prompt_variant_id with
     | none => []
     | some variant =>
       criteria.map fun criterion =>
         let user_prompt := judgeUserPrompt variant result criterion
         let reply := judge.generate_text JUDGE_SYSTEM_PROMPT user_prompt
         let parsed := parse_judge_response reply
         { run_result_id := result.id
           criterion_id := criterion.id
           score := parsed.1
           rationale := parsed.2
           judge_model := if judge_model_name = "" then judge.name
             else judge_model_name
           source := "llm" }) ++
    evaluate_results rest prompts criteria judge judge_model_name

/-! ## Score aggregation (summarize.py) -/

/-- `result_variant_map.get(rid, "unknown")`: the map is built by inserting
the `id → prompt_variant_id` of each result in order, so a duplicated id keeps
the last entry. -/
def variantOf (results : List RunResult) (rid : String) : String :=
  match results.reverse.find? (fun r => r.id = rid) with
  | some r => r.prompt_variant_id
  | none => "unknown"

/-- The accumulation loop shared by `summarize_experiment` (lines 63-67) and
`summarize_single_run` (lines 225-229): every score whose key matches is
appended in order, except sentinel scores (`if s["score"] > 0`). -/
def scoresByKey (resultVariant : String → String) (scores : List EvalScore)
    (key : String × String) : List Int :=
  scores.foldl
    (fun acc s =>
      if (resultVariant s.run_result_id, s.criterion_id) = key ∧ 0 < s.score
      then acc ++ [s.score] else acc) []

/-- Round-half-to-even to an integer (Python `round` on the exact value),
computed on the numerator and denominator: with `f = ⌊q⌋` and fractional
remainder `r/den`, round down when `r/den < 1/2`, up when `> 1/2`, and to
the even neighbour on a tie. -/
def roundHalfEven (q : ℚ) : ℤ :=
  let f := q.num.fdiv q.den
  let r := q.num.fmod q.den
  if 2 * r < (q.den : ℤ) then f
  else if (q.den : ℤ) < 2 * r then f + 1
  else if f % 2 = 0 then f else f + 1

/-- Python `round(x, 2)`, on exact rationals. -/
def round2 (q : ℚ) : ℚ :=
  (roundHalfEven (q * 100) : ℚ) / 100

/-- The per-(variant, criterion) statistics block shared by
`summarize_experiment` (lines 81-95) and `summarize_single_run`
(lines 240-249). -/
structure KeyStats where
  mean : Option ℚ
  min : Option Int
  max : Option Int
  count : Nat
deriving Repr, DecidableEq

/-- `{"mean": round(sum/len, 2), "min": min, "max": max, "count": len}` for
a non-empty value list, and the `None`/`0` block otherwise. -/
def statsFor (vals : List Int) : KeyStats :=
  if vals.isEmpty then ⟨none, none, none, 0⟩
  else ⟨some (round2 ((vals.sum : ℚ) / (vals.length : ℚ))),
        vals.min?, vals.max?, vals.length⟩

/-- The aggregate a summary reports for one `(prompt_variant_id,
criterion_id)` key, from the results and scores of the run. -/
def summarizeKeyStats (results : List RunResult) (scores : List EvalScore)
    (key : String × String) : KeyStats :=
  statsFor (scoresByKey (variantOf results) scores key)

/-- Optional bold decoration around a marker: two stars when enabled. -/
def starsL (b : Bool) : List Char := if b then ['*', '*'] else []

/-- Optional colon after a marker. -/
def colonL (b : Bool) : List Char := if b then [':'] else []

/-- The [STATE]-marker block of a well-formed canonical response: optional
bold stars, the marker in some letter case, optional colon, a newline, then
the state text. -/
def stateBlockL (mS : List Char) (bS cS : Bool) (S : List Char) : List Char :=
  starsL bS ++ (mS ++ (starsL bS ++ (colonL cS ++ '\n' :: S)))

/-- A well-formed canonical response, character-list level: a decorated
reflection marker, a newline, the reflection text, a newline, then the
decorated state block. -/
def canonicalTextL (mR mS : List Char) (bR cR bS cS : Bool) (R S : List Char) :
    List Char :=
  starsL bR ++ (mR ++ (starsL bR ++ (colonL cR ++ '\n' ::
    (R ++ '\n' :: stateBlockL mS bS cS S))))

/-- A well-formed canonical response as a string. -/
def canonicalText (mR mS : String) (bR cR bS cS : Bool) (R S : String) : String :=
  ⟨canonicalTextL mR.data mS.data bR cR bS cS R.data S.data⟩

/-- Case-insensitive substring containment: some position of the text
starts with the needle, compared through lowering. -/
def containsCI (needle : List Char) : List Char → Bool
  | [] => (dropPrefixCI needle []).isSome
  | c :: t => (dropPrefixCI needle (c :: t)).isSome || containsCI needle t

/-- The reply contains, at some position, the literal SCORE: followed by
optional whitespace and a digit - the language of the score regex. -/
def ScorePatternOccurs (t : String) : Prop :=
  ∃ pre ws rest d, t.data = pre ++ (scoreLit ++ (ws ++ d :: rest)) ∧
    (∀ c ∈ ws, isPySpace c = true) ∧ d.isDigit = true

/-- A concrete two-image sequence without captions, used by witnesses. -/
def wImages : List ImageInput := [⟨"i1", "s1", none⟩, ⟨"i2", "s2", none⟩]

/-- A concrete provider: a canonical reply with state for the first image
and a reply with no parsable state for the second. -/
def wProvider : Provider := fun img _ =>
  if img.id = "i1" then { content := "[REFLECTION]\nI pause.\n[STATE]\nrestless" }
  else { content := "no state here" }

/-- A concrete user-prompt template using the three substituted fields. -/
def wTemplate : String :=
  "Profile: \x7bprofile\x7d Style: \x7bstyle\x7d State: \x7bcurrent_state\x7d"

/-- A concrete single-image sequence whose image carries a caption. -/
def cImages : List ImageInput := [⟨"i1", "s1", some "a lake"⟩]

/-- A concrete evaluation criterion. -/
def cCriterion : EvalCriterion :=
  { id := "c1", name := "Criterion", description := "desc", scoring_prompt := "score it" }

/-- A concrete judge returning a fixed well-formed reply. -/
def cJudge : Judge := ⟨"judge/j", fun _ _ => "SCORE: 3\nRATIONALE: fine"⟩

/-- A concrete result whose prompt variant id matches no prompt. -/
def cOrphan : RunResult := { id := "x1", prompt_variant_id := "missing/img" }

/-- A concrete one-result run for aggregation instances. -/
def aggResults : List RunResult := [{ id := "r1", prompt_variant_id := "base/img1" }]

/-- The score list [3, 0, 5, 0, 4] of the C7 aggregation instance, for one
(variant, criterion) key. -/
def aggScores : List EvalScore :=
  [{ run_result_id := "r1", criterion_id := "c1", score := 3 },
   { run_result_id := "r1", criterion_id := "c1", score := 0 },
   { run_result_id := "r1", criterion_id := "c1", score := 5 },
   { run_result_id := "r1", criterion_id := "c1", score := 0 },
   { run_result_id := "r1", criterion_id := "c1", score := 4 }]

/-- C1: in every gallery walk, the carried state after step k equals the
state parsed from the raw response of step k when that parsed state is
non-empty, and otherwise equals the carried state after step k-1; the state
before step 1 is the resolved initial state, and a parse miss never resets
the carried state to empty. -/
theorem walk_state_carryover (variant_id cp cm tmpl profile style init : String)
    (provider : Provider) (images : List ImageInput) (k : Nat)
    (hk : k < images.length) :
    walkFinalState tmpl profile style provider init (images.take (k + 1)) =
      (if (parse_reflection_and_state (((run_gallery_walk variant_id cp cm tmpl
            profile style init provider images).1.getD k {}).raw_response)).2 = ""
       then walkFinalState tmpl profile style provider init (images.take k)
       else (parse_reflection_and_state (((run_gallery_walk variant_id cp cm tmpl
            profile style init provider images).1.getD k {}).raw_response)).2) := by
  induction images generalizing k init with
  | nil => simp at hk
  | cons img rest ih =>
    cases k with
    | zero =>
      simp [run_gallery_walk, walkSteps, walkFinalState]
    | succ k =>
      have hk' : k < rest.length := by simpa using hk
      simpa [run_gallery_walk, walkSteps, walkFinalState] using
        ih (if (parse_reflection_and_state (provider img (assembleUserPrompt tmpl
          profile style init img)).content).2 = "" then init
          else (parse_reflection_and_state (provider img (assembleUserPrompt tmpl
          profile style init img)).content).2) k hk'

/-- C4: for every step of the gallery walk, the prompt appended to the
assembled-prompts record is byte-identical to the user prompt string the
provider is called with at that step, and that string is the template with
profile, style and the carried state substituted, with the caption
annotation appended exactly when the image carries a present, non-empty
caption. -/
theorem walk_prompt_recorded (variant_id cp cm tmpl profile style init : String)
    (provider : Provider) (images : List ImageInput) (k : Nat)
    (hk : k < images.length) :
    (run_gallery_walk variant_id cp cm tmpl profile style init provider
        images).2.getD k "" =
      assembleUserPrompt tmpl profile style
        (walkFinalState tmpl profile style provider init (images.take k))
        (images.getD k ⟨"", "", none⟩) ∧
    ((run_gallery_walk variant_id cp cm tmpl profile style init provider
        images).1.getD k {}).raw_response =
      (provider (images.getD k ⟨"", "", none⟩)
        ((run_gallery_walk variant_id cp cm tmpl profile style init provider
          images).2.getD k "")).content := by
  induction images generalizing k init with
  | nil => simp at hk
  | cons img rest ih =>
    cases k with
    | zero =>
      simp [run_gallery_walk, walkSteps, walkFinalState]
    | succ k =>
      have hk' : k < rest.length := by simpa using hk
      simpa [run_gallery_walk, walkSteps, walkFinalState] using
        ih (if (parse_reflection_and_state (provider img (assembleUserPrompt tmpl
          profile style init img)).content).2 = "" then init
          else (parse_reflection_and_state (provider img (assembleUserPrompt tmpl
          profile style init img)).content).2) k hk'

theorem walkSteps_lengths (variant_id cp cm tmpl profile style : String)
    (provider : Provider) (init : String) (images : List ImageInput) :
    (walkSteps variant_id cp cm tmpl profile style provider init images).1.length
      = images.length ∧
    (walkSteps variant_id cp cm tmpl profile style provider init images).2.length
      = images.length := by
  induction images generalizing init with
  | nil => simp [walkSteps]
  | cons img rest ih => simp [walkSteps, ih]

theorem tier1_userPrompts_eq (system_prompt : String) (results : List RunResult)
    (prompts : List String) (h : results.length = prompts.length) :
    rebuildTier1UserPrompts (assembledPromptRecords system_prompt results prompts)
      = prompts := by
  induction results generalizing prompts with
  | nil => cases prompts with
    | nil => rfl
    | cons p ps => simp at h
  | cons r rs ih =>
    cases prompts with
    | nil => simp at h
    | cons p ps =>
      simp only [rebuildTier1UserPrompts, assembledPromptRecords, List.zip_cons_cons,
        List.map_cons] at *
      exact congrArg _ (ih ps (by simpa using h))

theorem tier2_eq_walk_prompts_no_captions (variant_id cp cm tmpl profile style : String)
    (provider : Provider) (init : String) (images : List ImageInput)
    (hcap : ∀ img ∈ images, img.caption = none ∨ img.caption = some "") :
    rebuildTier2UserPrompts tmpl profile style init
        (run_gallery_walk variant_id cp cm tmpl profile style init provider images).1
      = (run_gallery_walk variant_id cp cm tmpl profile style init provider images).2 := by
  induction images generalizing init with
  | nil => simp [run_gallery_walk, walkSteps, rebuildTier2UserPrompts]
  | cons img rest ih =>
    have hcap0 : assembleUserPrompt tmpl profile style init img
        = formatWalkTemplate tmpl profile style init := by
      rcases hcap img (by simp) with h | h <;> simp [assembleUserPrompt, h]
    simp only [run_gallery_walk, walkSteps, rebuildTier2UserPrompts] at *
    rw [hcap0]
    refine congrArg _ ?_
    exact ih _ (fun i hi => hcap i (by simp [hi]))

/-- Witness for C1 at a concrete two-image walk whose second response has no
parsable state. -/
theorem walk_state_carryover_witness :
    1 < wImages.length ∧
    walkFinalState wTemplate "pr" "st" wProvider "calm" (wImages.take (1 + 1)) =
      (if (parse_reflection_and_state (((run_gallery_walk "base" "p" "m" wTemplate
            "pr" "st" "calm" wProvider wImages).1.getD 1 {}).raw_response)).2 = ""
       then walkFinalState wTemplate "pr" "st" wProvider "calm" (wImages.take 1)
       else (parse_reflection_and_state (((run_gallery_walk "base" "p" "m" wTemplate
            "pr" "st" "calm" wProvider wImages).1.getD 1 {}).raw_response)).2) :=
  ⟨by decide, walk_state_carryover "base" "p" "m" wTemplate "pr" "st" "calm"
    wProvider wImages 1 (by decide)⟩

/-- Witness for C4 at the first step of a concrete walk. -/
theorem walk_prompt_recorded_witness :
    0 < wImages.length ∧
    ((run_gallery_walk "base" "p" "m" wTemplate "pr" "st" "calm" wProvider
        wImages).2.getD 0 "" =
      assembleUserPrompt wTemplate "pr" "st"
        (walkFinalState wTemplate "pr" "st" wProvider "calm" (wImages.take 0))
        (wImages.getD 0 ⟨"", "", none⟩) ∧
    ((run_gallery_walk "base" "p" "m" wTemplate "pr" "st" "calm" wProvider
        wImages).1.getD 0 {}).raw_response =
      (wProvider (wImages.getD 0 ⟨"", "", none⟩)
        ((run_gallery_walk "base" "p" "m" wTemplate "pr" "st" "calm" wProvider
          wImages).2.getD 0 "")).content) :=
  ⟨by decide, walk_prompt_recorded "base" "p" "m" wTemplate "pr" "st" "calm"
    wProvider wImages 0 (by decide)⟩

/-- C5 (amended): for every run produced by the gallery walk whose images
carry no non-empty caption, tier-1 reconstruction from the saved
assembled-prompt records yields, for every step, a user prompt
byte-identical to what the tier-2 replay computes from the same seed
artifacts and raw responses; with a captioned image the two differ by
exactly the caption annotation the replay never re-appends. -/
theorem tier1_eq_tier2_no_captions (variant_id cp cm system_prompt tmpl profile
    style init : String) (provider : Provider) (images : List ImageInput)
    (hcap : ∀ img ∈ images, img.caption = none ∨ img.caption = some "") :
    rebuildTier1UserPrompts (assembledPromptRecords system_prompt
        (run_gallery_walk variant_id cp cm tmpl profile style init provider images).1
        (run_gallery_walk variant_id cp cm tmpl profile style init provider images).2)
      = rebuildTier2UserPrompts tmpl profile style init
        (run_gallery_walk variant_id cp cm tmpl profile style init provider images).1 := by
  rw [tier1_userPrompts_eq _ _ _ ?hlen]
  · exact (tier2_eq_walk_prompts_no_captions variant_id cp cm tmpl profile style
      provider init images hcap).symm
  case hlen =>
    have h := walkSteps_lengths variant_id cp cm tmpl profile style provider init images
    simpa [run_gallery_walk] using h.1.trans h.2.symm

/-- Witness for C5 on a concrete caption-free walk. -/
theorem tier1_eq_tier2_witness :
    (∀ img ∈ wImages, img.caption = none ∨ img.caption = some "") ∧
    rebuildTier1UserPrompts (assembledPromptRecords "sys"
        (run_gallery_walk "base" "p" "m" wTemplate "pr" "st" "calm" wProvider wImages).1
        (run_gallery_walk "base" "p" "m" wTemplate "pr" "st" "calm" wProvider wImages).2)
      = rebuildTier2UserPrompts wTemplate "pr" "st" "calm"
        (run_gallery_walk "base" "p" "m" wTemplate "pr" "st" "calm" wProvider wImages).1 :=
  ⟨by decide, tier1_eq_tier2_no_captions "base" "p" "m" "sys" wTemplate "pr" "st"
    "calm" wProvider wImages (by decide)⟩

/-- Counterexample to C5 as stated: for a run whose single image carries a
caption, tier-1 reconstruction (the saved records, used unmodified) differs
from what the tier-2 replay computes, because the replay recomputes the
prompt by template substitution alone and never re-appends the caption
annotation. -/
theorem tier1_ne_tier2_with_caption :
    rebuildTier1UserPrompts (assembledPromptRecords "sys"
        (run_gallery_walk "base" "p" "m" wTemplate "pr" "st" "calm" wProvider cImages).1
        (run_gallery_walk "base" "p" "m" wTemplate "pr" "st" "calm" wProvider cImages).2)
      ≠ rebuildTier2UserPrompts wTemplate "pr" "st" "calm"
        (run_gallery_walk "base" "p" "m" wTemplate "pr" "st" "calm" wProvider cImages).1 := by
  decide

theorem take_enum_map_eq_range (images : List ImageInput) (idx : Nat)
    (h : idx ≤ images.length) (f : Nat → ImageInput → String) :
    ((images.take idx).enum.map fun p => f p.1 p.2)
      = (List.range idx).map fun i => f i (images.getD i ⟨"", "", none⟩) := by
  apply List.ext_get
  · simp [Nat.min_eq_left h]
  · intro n h1 h2
    simp only [List.get_eq_getElem, List.getElem_map, List.getElem_enum,
      List.getElem_range, List.getElem_take]
    have hn : n < images.length := by
      simp [Nat.min_eq_left h] at h1
      omega
    rw [List.getD_eq_getElem _ _ hn]

/-- C9: for every in-range step index, the judge context is empty for index
0, and otherwise lists exactly the images at indices 0..i-1, in configured
order, each line carrying the image id and caption, followed by a marker
naming the position of the current image in the sequence. -/
theorem sequence_context_lists_priors (images : List ImageInput) (idx : Nat)
    (h : idx < images.length) :
    build_sequence_context images idx =
      some (if idx = 0 then "" else
        String.intercalate "\n" ("Images shown before the current one:" ::
          ((images.take idx).enum.map fun p => sequenceLine p.1 p.2) ++
          ["Current image (" ++ toString (idx + 1) ++ " of " ++
            toString images.length ++ "):",
           sequenceLine idx (images.getD idx ⟨"", "", none⟩)])) := by
  by_cases h0 : idx = 0
  · simp [build_sequence_context, h0]
  · rw [take_enum_map_eq_range images idx (Nat.le_of_lt h)]
    have hsome : images.get? idx = some (images.getD idx ⟨"", "", none⟩) := by
      rw [List.getD_eq_getElem _ _ h, List.get?_eq_getElem?]
      exact List.getElem?_eq_getElem h
    unfold build_sequence_context
    rw [hsome]
    simp only [if_neg h0]

theorem scoresByKey_eq_filter (resultVariant : String → String)
    (scores : List EvalScore) (key : String × String) :
    scoresByKey resultVariant scores key =
      (scores.filter fun s =>
        decide ((resultVariant s.run_result_id, s.criterion_id) = key ∧
          0 < s.score)).map fun s => s.score := by
  suffices h : ∀ acc : List Int, scores.foldl
      (fun acc s =>
        if (resultVariant s.run_result_id, s.criterion_id) = key ∧ 0 < s.score
        then acc ++ [s.score] else acc) acc
      = acc ++ (scores.filter fun s =>
          decide ((resultVariant s.run_result_id, s.criterion_id) = key ∧
            0 < s.score)).map fun s => s.score by
    simpa [scoresByKey] using h []
  induction scores with
  | nil => simp
  | cons s rest ih =>
    intro acc
    by_cases hs : (resultVariant s.run_result_id, s.criterion_id) = key ∧ 0 < s.score
    · simp [hs, ih, List.filter_cons]
    · simp [hs, ih, List.filter_cons]

/-- C7: the accumulation shared by summarize_experiment and
summarize_single_run collects, per (variant, criterion) key, exactly the
scores that match the key and are strictly positive, so sentinel zero
scores are excluded from mean, min, max and count; and the score list
[3, 0, 5, 0, 4] for one key aggregates to mean 4.0, min 3, max 5,
count 3. -/
theorem aggregator_excludes_sentinels :
    (∀ (resultVariant : String → String) (scores : List EvalScore)
      (key : String × String),
      scoresByKey resultVariant scores key =
        (scores.filter fun s =>
          decide ((resultVariant s.run_result_id, s.criterion_id) = key ∧
            0 < s.score)).map fun s => s.score) ∧
    summarizeKeyStats aggResults aggScores ("base/img1", "c1") =
      ⟨some 4, some 3, some 5, 3⟩ := by
  refine ⟨scoresByKey_eq_filter, ?_⟩
  have h1 : scoresByKey (variantOf aggResults) aggScores ("base/img1", "c1")
      = [3, 5, 4] := by decide
  unfold summarizeKeyStats
  rw [h1]
  unfold statsFor
  norm_num [round2, roundHalfEven]

/-- C8: evaluation of the in-repository evaluate_results at a failing
input: a result whose prompt variant id is missing from the prompt list is
silently skipped, so fewer than results-times-criteria scores are produced,
contradicting the claimed contract; the claimed (scores, judge_prompts)
return pair and the requires_image attachment do not exist in this
function at all, which is why the in-repository callers of this function
cannot run. -/
theorem evaluate_results_misses_pairs :
    (evaluate_results [cOrphan] [] [cCriterion] cJudge "").length
      ≠ [cOrphan].length * [cCriterion].length := by decide

theorem dropPrefixCS_eq_append {pat s r : List Char}
    (h : dropPrefixCS pat s = some r) : s = pat ++ r := by
  induction pat generalizing s with
  | nil =>
    have : s = r := by simpa [dropPrefixCS] using h
    simp [this]
  | cons p ps ih =>
    cases s with
    | nil => simp [dropPrefixCS] at h
    | cons c cs =>
      simp only [dropPrefixCS] at h
      split at h
      · next heq => simpa [heq] using ih h
      · exact absurd h (by simp)

theorem dropPrefixCS_append_self (pat r : List Char) :
    dropPrefixCS pat (pat ++ r) = some r := by
  induction pat with
  | nil => rfl
  | cons p ps ih => simp [dropPrefixCS, ih]

theorem digit_not_space {c : Char} (h : c.isDigit = true) : isPySpace c = false := by
  by_contra hsp
  have hsp' : isPySpace c = true := by
    cases hb : isPySpace c
    · exact absurd hb hsp
    · rfl
  rcases (by simpa [isPySpace, or_assoc] using hsp' : c = ' ' ∨ c = '\t' ∨
      c = '\n' ∨ c = '\r' ∨ c = '\x0b' ∨ c = '\x0c') with h1 | h1 | h1 | h1 | h1 | h1 <;>
    subst h1 <;> simp at h

theorem dropWhile_append_of_all {p : Char → Bool} {ws : List Char}
    (h : ∀ c ∈ ws, p c = true) (l : List Char) :
    (ws ++ l).dropWhile p = l.dropWhile p := by
  induction ws with
  | nil => rfl
  | cons c t ih =>
    simp only [List.cons_append, List.dropWhile_cons, h c (by simp), if_true]
    exact ih fun x hx => h x (by simp [hx])

theorem all_takeWhile {p : Char → Bool} (l : List Char) :
    ∀ c ∈ l.takeWhile p, p c = true := by
  induction l with
  | nil => simp
  | cons a t ih =>
    by_cases hp : p a
    · simp only [List.takeWhile_cons, hp, if_true]
      intro c hc
      rcases List.mem_cons.mp hc with h1 | h1
      · subst h1; exact hp
      · exact ih c h1
    · simp [List.takeWhile_cons, hp]

theorem findScore_cons (c : Char) (t : List Char) :
    findScore (c :: t) =
      match dropPrefixCS scoreLit (c :: t) with
      | some r =>
        match dropWs r with
        | d :: _ => if d.isDigit then some (d.toNat - '0'.toNat) else findScore t
        | [] => findScore t
      | none => findScore t := rfl

theorem findScore_isSome_of (pre ws rest : List Char) (d : Char)
    (hws : ∀ c ∈ ws, isPySpace c = true) (hd : d.isDigit = true) :
    (findScore (pre ++ (scoreLit ++ (ws ++ d :: rest)))).isSome = true := by
  induction pre with
  | nil =>
    rw [List.nil_append,
      show scoreLit ++ (ws ++ d :: rest)
        = 'S' :: ("CORE:".data ++ (ws ++ d :: rest)) from rfl,
      findScore_cons,
      show ('S' :: ("CORE:".data ++ (ws ++ d :: rest)) : List Char)
        = scoreLit ++ (ws ++ d :: rest) from rfl,
      dropPrefixCS_append_self]
    have hws' : dropWs (ws ++ d :: rest) = d :: rest := by
      rw [dropWs, dropWhile_append_of_all hws]
      simp [List.dropWhile_cons, digit_not_space hd]
    simp [hws', hd]
  | cons c pre' ih =>
    rw [List.cons_append, findScore_cons]
    cases h : dropPrefixCS scoreLit (c :: (pre' ++ (scoreLit ++ (ws ++ d :: rest)))) with
    | none => simpa using ih
    | some r =>
      dsimp only
      cases hr : dropWs r with
      | nil => simpa using ih
      | cons d' t' =>
        by_cases hd' : d'.isDigit
        · simp [hd']
        · simpa [hd'] using ih

theorem findScore_isSome_then (l : List Char) (h : (findScore l).isSome = true) :
    ∃ pre ws rest d, l = pre ++ (scoreLit ++ (ws ++ d :: rest)) ∧
      (∀ c ∈ ws, isPySpace c = true) ∧ d.isDigit = true := by
  induction l with
  | nil => simp [findScore] at h
  | cons c t ih =>
    rw [findScore_cons] at h
    split at h
    · next r hdp =>
      split at h
      · next d' t' hr =>
        split at h
        · next hd' =>
          refine ⟨[], r.takeWhile isPySpace, t', d', ?_, all_takeWhile r, hd'⟩
          have hct : c :: t = scoreLit ++ r := dropPrefixCS_eq_append hdp
          have hsplit : r = r.takeWhile isPySpace ++ (d' :: t') := by
            conv_lhs => rw [← List.takeWhile_append_dropWhile (p := isPySpace) (l := r)]
            rw [show r.dropWhile isPySpace = dropWs r from rfl, hr]
          rw [hsplit] at hct
          simpa using hct
        · next hd' =>
          obtain ⟨pre, ws, rest, d, hl, hws, hd⟩ := ih h
          exact ⟨c :: pre, ws, rest, d, by simp [hl], hws, hd⟩
      · next hr =>
        obtain ⟨pre, ws, rest, d, hl, hws, hd⟩ := ih h
        exact ⟨c :: pre, ws, rest, d, by simp [hl], hws, hd⟩
    · next hdp =>
      obtain ⟨pre, ws, rest, d, hl, hws, hd⟩ := ih h
      exact ⟨c :: pre, ws, rest, d, by simp [hl], hws, hd⟩

/-- C6 (amended): the judge-response parser returns a non-sentinel score
exactly when the reply contains SCORE: followed by optional whitespace and
a digit; a matched digit is clamped into [1, 5]; the rationale is the
stripped text after the first RATIONALE: with non-empty remainder when one
exists, and the full stripped reply otherwise (not always the full reply,
as the claim stated); the parser is total and never raises. -/
theorem judge_parse_contract :
    (∀ t : String, ((parse_judge_response t).1 ≠ 0 ↔ ScorePatternOccurs t)) ∧
    (∀ t : String, (parse_judge_response t).1 = 0 ∨
      (1 ≤ (parse_judge_response t).1 ∧ (parse_judge_response t).1 ≤ 5)) ∧
    (∀ (t : String) (d : Nat), findScore t.data = some d →
      (parse_judge_response t).1 = max 1 (min 5 (d : Int))) ∧
    (∀ (t : String) (r : List Char), findRationale t.data = some r →
      (parse_judge_response t).2 = ⟨pyStripL r⟩) ∧
    (∀ t : String, findRationale t.data = none →
      (parse_judge_response t).2 = pyStrip t) := by
  refine ⟨fun t => ?_, fun t => ?_, fun t d h => ?_, fun t r h => ?_, fun t h => ?_⟩
  · cases h : findScore t.data with
    | none =>
      simp only [parse_judge_response, h]
      constructor
      · intro h0; exact absurd rfl h0
      · rintro ⟨pre, ws, rest, d, hl, hws, hd⟩
        have := findScore_isSome_of pre ws rest d hws hd
        rw [← hl, h] at this
        simp at this
    | some d =>
      simp only [parse_judge_response, h]
      constructor
      · intro _
        have hs := findScore_isSome_then t.data (by simp [h])
        exact hs
      · intro _
        have h1 : (1 : Int) ≤ max 1 (min 5 (d : Int)) := le_max_left _ _
        omega
  · cases h : findScore t.data with
    | none => simp [parse_judge_response, h]
    | some d =>
      right
      simp only [parse_judge_response, h]
      constructor
      · exact le_max_left _ _
      · have h2 : (0 : Int) ≤ d := Int.ofNat_nonneg d
        omega
  · simp [parse_judge_response, h]
  · simp [parse_judge_response, h]
  · simp [parse_judge_response, h, pyStrip]

/-- Witness for C6 on a concrete reply with a score of four. -/
theorem judge_parse_contract_witness :
    findScore ("SCORE: 4").data = some 4 ∧
    (parse_judge_response "SCORE: 4").1 = max 1 (min 5 ((4 : Nat) : Int)) :=
  ⟨by decide, judge_parse_contract.2.2.1 "SCORE: 4" 4 (by decide)⟩

/-- C10: a reply whose SCORE match carries the digit 0 is clamped to score
1, which is strictly positive and enters the aggregation statistics; the
sentinel score 0 arises exactly when no SCORE pattern matches at all. -/
theorem score_zero_not_sentinel :
    (∀ t : String, ((parse_judge_response t).1 = 0 ↔ findScore t.data = none)) ∧
    (∀ t : String, findScore t.data = some 0 → (parse_judge_response t).1 = 1) ∧
    parse_judge_response "SCORE: 0\nRATIONALE: because" = (1, "because") ∧
    summarizeKeyStats aggResults
      [{ run_result_id := "r1", criterion_id := "c1",
         score := (parse_judge_response "SCORE: 0\nRATIONALE: because").1 }]
      ("base/img1", "c1") = ⟨some 1, some 1, some 1, 1⟩ := by
  refine ⟨fun t => ?_, fun t h => ?_, by decide, ?_⟩
  · cases h : findScore t.data with
    | none => simp [parse_judge_response, h]
    | some d =>
      simp only [parse_judge_response, h]
      constructor
      · intro h0
        have h1 : (1 : Int) ≤ max 1 (min 5 (d : Int)) := le_max_left _ _
        omega
      · intro hc; exact absurd hc (by simp)
  · simp [parse_judge_response, h]
  · have h1 : scoresByKey (variantOf aggResults)
        [{ run_result_id := "r1", criterion_id := "c1",
           score := (parse_judge_response "SCORE: 0\nRATIONALE: because").1 }]
        ("base/img1", "c1") = [1] := by decide
    unfold summarizeKeyStats
    rw [h1]
    unfold statsFor
    norm_num [round2, roundHalfEven]

/-- Witness for C10 on the reply SCORE: 0. -/
theorem score_zero_not_sentinel_witness :
    findScore ("SCORE: 0").data = some 0 ∧ (parse_judge_response "SCORE: 0").1 = 1 :=
  ⟨by decide, score_zero_not_sentinel.2.1 "SCORE: 0" (by decide)⟩

/-- Counterexample to C6 as stated: a reply with no SCORE line but with a
RATIONALE line returns the text after RATIONALE:, not the full raw reply
text the claim predicts for every reply without a SCORE line. -/
theorem judge_parse_rationale_counterexample :
    parse_judge_response "RATIONALE: because" ≠ (0, "RATIONALE: because") := by
  decide

/-- Counterexample to C3 as stated: an input containing only the
Internal-state half of the oldest convention returns that captured state,
not the empty state the claim predicts for inputs where no convention has
both halves present. -/
theorem old_marker_half_counterexample :
    (parse_reflection_and_state "Internal state after this image:\ncalm").2 ≠ "" := by
  decide

/-- C3 (amended): the parser tries the canonical pair, then the legacy
pair, each used only when both of its halves match; when neither pair
fully matches, the two halves of the oldest convention apply independently:
the reflection is the Reaction capture when that marker matches, else the
entire stripped input, and the state is the Internal-state capture when
that marker matches, else empty. -/
theorem parse_cascade (t : String) :
    (∀ rc sc, canonReflMatch (pyStripL t.data) = some rc →
      canonStateMatch (pyStripL t.data) = some sc →
      parse_reflection_and_state t =
        (⟨pyStripL (captureUntil (canonLookahead stateLit) rc)⟩,
         ⟨pyStripL (captureToEol sc)⟩)) ∧
    ((canonReflMatch (pyStripL t.data) = none ∨
      canonStateMatch (pyStripL t.data) = none) →
      ∀ rc sc, legacyReflMatch (pyStripL t.data) = some rc →
        legacyStateMatch (pyStripL t.data) = some sc →
        parse_reflection_and_state t =
          (⟨pyStripL (captureUntil (legacyLookahead legacyStateLit) rc)⟩,
           ⟨pyStripL (captureToEol sc)⟩)) ∧
    ((canonReflMatch (pyStripL t.data) = none ∨
      canonStateMatch (pyStripL t.data) = none) →
      (legacyReflMatch (pyStripL t.data) = none ∨
       legacyStateMatch (pyStripL t.data) = none) →
      parse_reflection_and_state t =
        ((match oldReactionMatch (pyStripL t.data) with
          | some rc =>
            (⟨pyStripL (captureUntil (legacyLookahead internalStateLit) rc)⟩ : String)
          | none => ⟨pyStripL t.data⟩),
         (match oldStateMatch (pyStripL t.data) with
          | some sc => (⟨pyStripL (captureToEol sc)⟩ : String)
          | none => ""))) := by
  refine ⟨fun rc sc h1 h2 => ?_, fun hmiss rc sc h1 h2 => ?_, fun hmiss hmiss2 => ?_⟩
  · simp [parse_reflection_and_state, h1, h2]
  · rcases hmiss with h | h <;>
      simp [parse_reflection_and_state, h, h1, h2]
  · rcases hmiss with h | h <;> rcases hmiss2 with h' | h' <;>
      simp [parse_reflection_and_state, h, h'] <;>
      rcases h3 : oldReactionMatch (pyStripL t.data) with _ | rc <;>
      rcases h4 : oldStateMatch (pyStripL t.data) with _ | sc <;>
      simp [h3, h4]

/-- Witness for C3 on a concrete canonical response. -/
theorem parse_cascade_witness :
    canonReflMatch (pyStripL ("[REFLECTION]\nwide\n[STATE]\ncalm").data) =
      some ("wide\n[STATE]\ncalm").data ∧
    canonStateMatch (pyStripL ("[REFLECTION]\nwide\n[STATE]\ncalm").data) =
      some ("calm").data ∧
    parse_reflection_and_state "[REFLECTION]\nwide\n[STATE]\ncalm" =
      (⟨pyStripL (captureUntil (canonLookahead stateLit) ("wide\n[STATE]\ncalm").data)⟩,
       ⟨pyStripL (captureToEol ("calm").data)⟩) :=
  ⟨by decide, by decide,
    (parse_cascade "[REFLECTION]\nwide\n[STATE]\ncalm").1
      ("wide\n[STATE]\ncalm").data ("calm").data (by decide) (by decide)⟩

theorem toLower_eq_self_of_not_upper {c : Char}
    (h : ¬ (65 ≤ c.toNat ∧ c.toNat ≤ 90)) : Char.toLower c = c := by
  unfold Char.toLower
  rw [if_neg]
  intro hc
  exact h ⟨hc.1, hc.2⟩

theorem toLower_toNat_of_upper {c : Char}
    (h : 65 ≤ c.toNat ∧ c.toNat ≤ 90) :
    97 ≤ (Char.toLower c).toNat ∧ (Char.toLower c).toNat ≤ 122 := by
  obtain ⟨h1, h2⟩ := h
  have hc : c = Char.ofNat c.toNat := (Char.ofNat_toNat c).symm
  rw [hc]
  generalize c.toNat = n at h1 h2
  interval_cases n <;> decide

theorem toLower_idem (c : Char) : Char.toLower (Char.toLower c) = Char.toLower c := by
  by_cases h : 65 ≤ c.toNat ∧ c.toNat ≤ 90
  · have hb := toLower_toNat_of_upper h
    exact toLower_eq_self_of_not_upper (by omega)
  · rw [toLower_eq_self_of_not_upper h, toLower_eq_self_of_not_upper h]

theorem toLower_eq_of_not_letter {c x : Char} (h : Char.toLower c = x)
    (hx : ¬ (97 ≤ x.toNat ∧ x.toNat ≤ 122)) : c = x := by
  by_cases hc : 65 ≤ c.toNat ∧ c.toNat ≤ 90
  · have hb := toLower_toNat_of_upper hc
    rw [h] at hb
    exact absurd hb hx
  · rw [← h]; exact (toLower_eq_self_of_not_upper hc).symm

theorem charCI_toLower_left (a b : Char) : charCI (Char.toLower a) b = charCI a b := by
  simp [charCI, toLower_idem]

theorem dropPrefixCI_isSome_map (p : List Char) (l : List Char) :
    (dropPrefixCI p (l.map Char.toLower)).isSome = (dropPrefixCI p l).isSome := by
  induction p generalizing l with
  | nil => simp [dropPrefixCI]
  | cons q qs ih =>
    cases l with
    | nil => simp [dropPrefixCI]
    | cons c cs =>
      simp only [List.map_cons, dropPrefixCI, charCI_toLower_left]
      by_cases h : charCI c q = true
      · simp only [h, if_true]
        exact ih cs
      · simp only [eq_false_of_ne_true h, if_false]
        simp

theorem containsCI_map (needle l : List Char) :
    containsCI needle (l.map Char.toLower) = containsCI needle l := by
  induction l with
  | nil => rfl
  | cons c cs ih =>
    simp only [List.map_cons, containsCI]
    rw [show (Char.toLower c :: cs.map Char.toLower) = (c :: cs).map Char.toLower
      from rfl, dropPrefixCI_isSome_map, ih]

theorem containsCI_suffix_none {needle l t : List Char}
    (h : containsCI needle l = false) (ht : t <:+ l) :
    (dropPrefixCI needle t).isSome = false := by
  induction l with
  | nil =>
    rw [List.suffix_nil.mp ht]
    simpa [containsCI] using h
  | cons c cs ih =>
    simp only [containsCI, Bool.or_eq_false_iff] at h
    rcases List.suffix_cons_iff.mp ht with h1 | h1
    · rw [h1]; exact h.1
    · exact ih h.2 h1

theorem dropPrefixCI_of_map_eq {p m : List Char}
    (hm : m.map Char.toLower = p.map Char.toLower) (rest : List Char) :
    dropPrefixCI p (m ++ rest) = some rest := by
  induction p generalizing m with
  | nil =>
    have : m = [] := by simpa using hm
    simp [this, dropPrefixCI]
  | cons q qs ih =>
    cases m with
    | nil => simp at hm
    | cons c cs =>
      simp only [List.map_cons, List.cons.injEq] at hm
      simp only [List.cons_append, dropPrefixCI]
      rw [if_pos (by simp [charCI, hm.1])]
      exact ih hm.2

theorem dropPrefixCI_some_length {p s r : List Char}
    (h : dropPrefixCI p s = some r) : p.length ≤ s.length := by
  induction p generalizing s with
  | nil => simp
  | cons q qs ih =>
    cases s with
    | nil => simp [dropPrefixCI] at h
    | cons c cs =>
      simp only [dropPrefixCI] at h
      split at h
      · simpa using ih h
      · exact absurd h (by simp)

theorem dropPrefixCI_short_newline {needle : List Char}
    (hno : ∀ p ∈ needle, Char.toLower p ≠ '\n') {xs : List Char}
    (hlen : xs.length < needle.length) (ys : List Char) :
    dropPrefixCI needle (xs ++ '\n' :: ys) = none := by
  induction needle generalizing xs with
  | nil => simp at hlen
  | cons q qs ih =>
    cases xs with
    | nil =>
      simp only [List.nil_append, dropPrefixCI]
      rw [if_neg]
      intro hc
      have h1 : Char.toLower '\n' = Char.toLower q := by simpa [charCI] using hc
      have h2 : Char.toLower '\n' = '\n' := by decide
      exact hno q (by simp) (h1.symm.trans h2)
    | cons c cs =>
      simp only [List.cons_append, dropPrefixCI]
      by_cases h : charCI c q = true
      · rw [if_pos h]
        exact ih (fun p hp => hno p (by simp [hp])) (by simpa using hlen)
      · rw [if_neg (by simp [h])]

theorem dropPrefixCI_append_of_le {needle xs : List Char}
    (hlen : needle.length ≤ xs.length) (ys : List Char) :
    (dropPrefixCI needle (xs ++ ys)).isSome = (dropPrefixCI needle xs).isSome := by
  induction needle generalizing xs with
  | nil => simp [dropPrefixCI]
  | cons q qs ih =>
    cases xs with
    | nil => simp at hlen
    | cons c cs =>
      simp only [List.cons_append, dropPrefixCI]
      by_cases h : charCI c q = true
      · rw [if_pos h, if_pos h]
        exact ih (by simpa using hlen)
      · rw [if_neg (by simp [h]), if_neg (by simp [h])]

theorem dropPrefixCI_append_newline {needle : List Char}
    (hno : ∀ p ∈ needle, Char.toLower p ≠ '\n') (t y : List Char) :
    (dropPrefixCI needle (t ++ '\n' :: y)).isSome
      = (dropPrefixCI needle t).isSome := by
  by_cases hlen : needle.length ≤ t.length
  · exact dropPrefixCI_append_of_le hlen _
  · rw [dropPrefixCI_short_newline hno (by omega) y]
    have hnone : dropPrefixCI needle t = none := by
      cases hv : dropPrefixCI needle t with
      | none => rfl
      | some r =>
        have hle := dropPrefixCI_some_length hv
        omega
    rw [hnone]

theorem containsCI_append_newline {needle : List Char}
    (hno : ∀ p ∈ needle, Char.toLower p ≠ '\n') (x y : List Char) :
    containsCI needle (x ++ '\n' :: y)
      = (containsCI needle x || containsCI needle y) := by
  induction x with
  | nil =>
    simp only [List.nil_append, containsCI]
    rw [show ('\n' :: y : List Char) = [] ++ '\n' :: y from rfl,
      dropPrefixCI_append_newline hno]
  | cons c cs ih =>
    have h1 : containsCI needle (c :: cs ++ '\n' :: y)
        = ((dropPrefixCI needle ((c :: cs) ++ '\n' :: y)).isSome
            || containsCI needle (cs ++ '\n' :: y)) := rfl
    have h2 : containsCI needle (c :: cs)
        = ((dropPrefixCI needle (c :: cs)).isSome || containsCI needle cs) := rfl
    rw [h1, dropPrefixCI_append_newline hno, ih, h2]
    cases (dropPrefixCI needle (c :: cs)).isSome <;>
      cases containsCI needle cs <;> cases containsCI needle y <;> rfl

theorem dropWs_append_of_ne {t : List Char} (h : dropWs t ≠ []) (ys : List Char) :
    dropWs (t ++ ys) = dropWs t ++ ys := by
  induction t with
  | nil => exact absurd rfl h
  | cons c cs ih =>
    by_cases hc : isPySpace c = true
    · simp only [dropWs, List.cons_append, List.dropWhile_cons, hc, if_true] at *
      exact ih h
    · simp only [dropWs, List.cons_append, List.dropWhile_cons, hc] at *
      simp [hc]

theorem dropStar1_cons_of_ne {c : Char} (h : ¬ (c = '*')) (t : List Char) :
    dropStar1 (c :: t) = c :: t := by
  unfold dropStar1
  split
  · next heq => injection heq with h1 h2; exact absurd h1 h
  · rfl

theorem dropStar1_suffix (l : List Char) : dropStar1 l <:+ l := by
  cases l with
  | nil => simp [dropStar1]
  | cons c t =>
    by_cases hc : c = '*'
    · subst hc
      exact List.suffix_cons '*' t
    · rw [dropStar1_cons_of_ne hc]

theorem dropStars2_suffix (l : List Char) : dropStars2 l <:+ l :=
  (dropStar1_suffix (dropStar1 l)).trans (dropStar1_suffix l)

theorem dropStar1_append {t : List Char} (h : t ≠ []) (ys : List Char) :
    dropStar1 (t ++ ys) = dropStar1 t ++ ys := by
  cases t with
  | nil => exact absurd rfl h
  | cons c cs =>
    by_cases hc : c = '*'
    · subst hc; rfl
    · rw [List.cons_append, dropStar1_cons_of_ne hc, dropStar1_cons_of_ne hc]
      rfl

theorem dropStar1_ne_nil {t : List Char} (h : dropStar1 t ≠ []) : t ≠ [] := by
  intro ht; subst ht; exact h rfl

theorem dropStars2_append {t : List Char} (h : dropStars2 t ≠ []) (ys : List Char) :
    dropStars2 (t ++ ys) = dropStars2 t ++ ys := by
  have h1 : dropStar1 t ≠ [] := by
    intro he
    apply h
    unfold dropStars2
    rw [he]
    rfl
  have h0 : t ≠ [] := dropStar1_ne_nil h1
  unfold dropStars2
  rw [dropStar1_append h0, dropStar1_append h1]

theorem dropWs_ne_nil_of_last {t : List Char} {x : Char} {t' : List Char}
    (ht : t = t' ++ [x]) (hlast : isPySpace x = false) : dropWs t ≠ [] := by
  intro he
  have hmem : x ∈ t := by simp [ht]
  have hall : ∀ c ∈ t, isPySpace c = true := by
    intro c hc
    have h1 := List.takeWhile_append_dropWhile (p := isPySpace) (l := t)
    rw [show t.dropWhile isPySpace = dropWs t from rfl, he, List.append_nil] at h1
    rw [← h1] at hc
    exact all_takeWhile t c hc
  rw [hall _ hmem] at hlast
  exact absurd hlast (by simp)

theorem captureUntil_append {stop : List Char → Bool} {xs ys : List Char}
    (hnostop : ∀ t, t ≠ [] → t <:+ xs → stop (t ++ ys) = false)
    (hstop : stop ys = true) :
    captureUntil stop (xs ++ ys) = xs := by
  induction xs with
  | nil =>
    cases ys with
    | nil => rfl
    | cons c t => simp [captureUntil, hstop]
  | cons x xs' ih =>
    have h1 : stop ((x :: xs') ++ ys) = false :=
      hnostop (x :: xs') (by simp) (List.suffix_refl _)
    rw [List.cons_append] at h1
    simp only [List.cons_append, captureUntil, List.append_eq, h1, if_false]
    exact congrArg (x :: ·) (ih fun t ht hts => hnostop t ht (hts.trans (List.suffix_cons x xs')))

theorem searchPos_append {m : List Char → Option (List Char)} {xs ys : List Char}
    (hfail : ∀ t, t ≠ [] → t <:+ xs → m (t ++ ys) = none) :
    searchPos m (xs ++ ys) = searchPos m ys := by
  induction xs with
  | nil => rfl
  | cons x xs' ih =>
    have h1 : m ((x :: xs') ++ ys) = none :=
      hfail (x :: xs') (by simp) (List.suffix_refl _)
    rw [List.cons_append] at h1
    simp only [List.cons_append, searchPos, List.append_eq, h1]
    exact ih fun t ht hts => hfail t ht (hts.trans (List.suffix_cons x xs'))

theorem length_dropWhile_le' (p : Char → Bool) (l : List Char) :
    (l.dropWhile p).length ≤ l.length :=
  (List.dropWhile_suffix p).length_le

theorem snoc_getLast? {l t : List Char} {x : Char} (h : l = t ++ [x]) :
    l.getLast? = some x := by
  subst h
  simp

theorem pyStripL_eq_self {l : List Char}
    (h1 : ∀ c t, l = c :: t → isPySpace c = false)
    (h2 : ∀ x t', l = t' ++ [x] → isPySpace x = false) :
    pyStripL l = l := by
  cases l with
  | nil => rfl
  | cons c t =>
    have hd : (c :: t).dropWhile isPySpace = c :: t := by
      simp [List.dropWhile_cons, h1 c t rfl]
    unfold pyStripL
    rw [hd]
    have hrev : (c :: t).reverse.dropWhile isPySpace = (c :: t).reverse := by
      cases hr : (c :: t).reverse with
      | nil => simp at hr
      | cons c' t' =>
        have hsnoc : (c :: t : List Char) = t'.reverse ++ [c'] := by
          have := congrArg List.reverse hr
          simpa using this
        simp [List.dropWhile_cons, h2 c' t'.reverse hsnoc]
    rw [hrev, List.reverse_reverse]

theorem stripped_head {l : List Char} (h : pyStripL l = l) :
    ∀ c t, l = c :: t → isPySpace c = false := by
  intro c t hl
  subst hl
  by_contra hsp
  have hsp' : isPySpace c = true := by
    cases hb : isPySpace c
    · exact absurd hb hsp
    · rfl
  have hlen1 : (pyStripL (c :: t)).length ≤ ((c :: t).dropWhile isPySpace).length := by
    unfold pyStripL
    simpa using length_dropWhile_le' isPySpace ((c :: t).dropWhile isPySpace).reverse
  have hlen2 : ((c :: t).dropWhile isPySpace).length ≤ t.length := by
    simp only [List.dropWhile_cons, hsp', if_true]
    exact length_dropWhile_le' _ _
  rw [h] at hlen1
  simp at hlen1
  omega

theorem stripped_last {l : List Char} (h : pyStripL l = l) :
    ∀ x t', l = t' ++ [x] → isPySpace x = false := by
  intro x t' hl
  by_contra hsp
  have hsp' : isPySpace x = true := by
    cases hb : isPySpace x
    · exact absurd hb hsp
    · rfl
  have hne : l ≠ [] := by subst hl; simp
  set d := l.dropWhile isPySpace with hdd
  rcases List.eq_nil_or_concat d with hd0 | ⟨ys, y, hdy⟩
  · have : pyStripL l = [] := by
      unfold pyStripL
      rw [← hdd, hd0]
      rfl
    rw [h] at this
    exact hne this
  · have hy : y = x := by
      have hsuf : d <:+ l := List.dropWhile_suffix _
      obtain ⟨u, hu⟩ := hsuf
      have : l = (u ++ ys) ++ [y] := by rw [← hu, hdy]; simp
      have e1 := snoc_getLast? this
      have e2 := snoc_getLast? hl
      rw [e1] at e2
      exact Option.some.inj e2
    have hlen1 : (pyStripL l).length ≤ (d.reverse.dropWhile isPySpace).length := by
      unfold pyStripL
      rw [← hdd]
      simp
    have hrev : d.reverse = y :: ys.reverse := by rw [hdy]; simp
    have hlen2 : (d.reverse.dropWhile isPySpace).length ≤ ys.length := by
      rw [hrev]
      simp only [List.dropWhile_cons, hy, hsp', if_true]
      try simpa using length_dropWhile_le' isPySpace ys.reverse
    have hlend : d.length ≤ l.length := by
      rw [hdd]
      exact length_dropWhile_le' _ _
    have hld : d.length = ys.length + 1 := by rw [hdy]; simp
    rw [h] at hlen1
    omega

theorem dropWs_cons_of_not_space {c : Char} (h : isPySpace c = false)
    (t : List Char) : dropWs (c :: t) = c :: t := by
  simp [dropWs, List.dropWhile_cons, h]

theorem dropColonOpt_cons_of_ne {c : Char} (h : ¬ (c = ':')) (t : List Char) :
    dropColonOpt (c :: t) = c :: t := by
  unfold dropColonOpt
  split
  · next heq => injection heq with h1 h2; exact absurd h1 h
  · rfl

theorem dropStars2_cons_of_ne {c : Char} (h : ¬ (c = '*')) (t : List Char) :
    dropStars2 (c :: t) = c :: t := by
  unfold dropStars2
  rw [dropStar1_cons_of_ne h, dropStar1_cons_of_ne h]

theorem dropPrefixCI_cons_ne {q c : Char} {qs t : List Char}
    (h : charCI c q = false) : dropPrefixCI (q :: qs) (c :: t) = none := by
  simp [dropPrefixCI, h]

theorem dropPrefixCI_some_append {p s r : List Char}
    (h : dropPrefixCI p s = some r) (w : List Char) :
    dropPrefixCI p (s ++ w) = some (r ++ w) := by
  induction p generalizing s with
  | nil =>
    have : s = r := by simpa [dropPrefixCI] using h
    subst this
    rfl
  | cons q qs ih =>
    cases s with
    | nil => simp [dropPrefixCI] at h
    | cons c cs =>
      simp only [dropPrefixCI] at h
      split at h
      · next hc =>
        show dropPrefixCI (q :: qs) (c :: (cs ++ w)) = some (r ++ w)
        simp only [dropPrefixCI, hc, if_true]
        exact ih h
      · exact absurd h (by simp)

theorem searchPos_of_head {m : List Char → Option (List Char)} {l r : List Char}
    (hl : l ≠ []) (h : m l = some r) : searchPos m l = some r := by
  cases l with
  | nil => exact absurd rfl hl
  | cons c t => simp [searchPos, h]

theorem canonCaptureStart_block {lit : List Char} {m : String} {b c : Bool}
    {body : List Char}
    (hm : m.data.map Char.toLower = lit.map Char.toLower)
    (hmne : m.data ≠ [])
    (hstar : ∀ ch t, m.data = ch :: t → ¬ (ch = '*'))
    (hbody1 : ∀ ch t, body = ch :: t → isPySpace ch = false)
    (hbody2 : ∀ t, body ≠ ':' :: t) :
    canonCaptureStart lit
      (starsL b ++ (m.data ++ (starsL b ++ (colonL c ++ '\n' :: body))))
      = some body := by
  have hds2 : ∀ X : List Char, dropStars2 ('*' :: '*' :: X) = X := fun X => rfl
  have hdropm : ∀ z : List Char, dropStars2 (m.data ++ z) = m.data ++ z := by
    intro z
    cases hmd : m.data with
    | nil => exact absurd hmd hmne
    | cons c0 cs =>
      rw [List.cons_append, dropStars2_cons_of_ne (hstar c0 cs hmd)]
  have hlit : ∀ z : List Char, dropPrefixCI lit (m.data ++ z) = some z :=
    fun z => dropPrefixCI_of_map_eq hm z
  have hbodyws : dropWs ('\n' :: body) = body := by
    cases hb : body with
    | nil => rfl
    | cons ch t =>
      rw [show dropWs ('\n' :: ch :: t) = dropWs (ch :: t) from rfl,
        dropWs_cons_of_not_space (hbody1 ch t hb)]
  have hbodycol : dropColonOpt body = body := by
    cases hb : body with
    | nil => rfl
    | cons ch t =>
      refine dropColonOpt_cons_of_ne ?_ t
      intro hc
      subst hc
      exact hbody2 t hb
  have hbodyws2 : dropWs body = body := by
    cases hb : body with
    | nil => rfl
    | cons ch t => exact dropWs_cons_of_not_space (hbody1 ch t hb) t
  cases b <;> cases c <;>
    simp only [starsL, colonL, if_true, if_false, Bool.false_eq_true,
      List.nil_append, List.cons_append, List.append_nil]
  · -- b = false, c = false
    unfold canonCaptureStart
    rw [hdropm, hlit]
    exact congrArg some (by
      rw [show dropStars2 ('\n' :: body) = '\n' :: body from
          dropStars2_cons_of_ne (by decide) body,
        hbodyws, hbodycol, hbodyws2])
  · -- b = false, c = true
    unfold canonCaptureStart
    rw [hdropm, hlit]
    exact congrArg some (by
      rw [show dropStars2 (':' :: '\n' :: body) = ':' :: '\n' :: body from
          dropStars2_cons_of_ne (by decide) _,
        dropWs_cons_of_not_space (by decide),
        show dropColonOpt (':' :: '\n' :: body) = '\n' :: body from rfl, hbodyws])
  · -- b = true, c = false
    show canonCaptureStart lit
      ('*' :: '*' :: (m.data ++ ('*' :: '*' :: '\n' :: body))) = some body
    unfold canonCaptureStart
    rw [hds2, hlit]
    exact congrArg some (by
      rw [hds2, hbodyws, hbodycol, hbodyws2])
  · -- b = true, c = true
    show canonCaptureStart lit
      ('*' :: '*' :: (m.data ++ ('*' :: '*' :: ':' :: '\n' :: body))) = some body
    unfold canonCaptureStart
    rw [hds2, hlit]
    exact congrArg some (by
      rw [hds2, dropWs_cons_of_not_space (by decide),
        show dropColonOpt (':' :: '\n' :: body) = '\n' :: body from rfl, hbodyws])

theorem lookahead_block {lit : List Char} {m : String} {b : Bool} {z : List Char}
    (hm : m.data.map Char.toLower = lit.map Char.toLower)
    (hmne : m.data ≠ [])
    (hstar : ∀ ch t, m.data = ch :: t → ¬ (ch = '*'))
    (hws : ∀ ch t, m.data = ch :: t → isPySpace ch = false) :
    (dropPrefixCI lit (dropStars2 (dropWs (starsL b ++ (m.data ++ z))))).isSome
      = true := by
  have hds2 : ∀ X : List Char, dropStars2 ('*' :: '*' :: X) = X := fun X => rfl
  have hdropm : ∀ w : List Char, dropStars2 (m.data ++ w) = m.data ++ w := by
    intro w
    cases hmd : m.data with
    | nil => exact absurd hmd hmne
    | cons c0 cs =>
      rw [List.cons_append, dropStars2_cons_of_ne (hstar c0 cs hmd)]
  have hlit : dropPrefixCI lit (m.data ++ z) = some z := dropPrefixCI_of_map_eq hm z
  cases b with
  | true =>
    simp only [starsL, if_true, List.cons_append, List.nil_append]
    rw [dropWs_cons_of_not_space (by decide), hds2, hlit]
    rfl
  | false =>
    simp only [starsL, Bool.false_eq_true, if_false, List.nil_append]
    cases hmd : m.data with
    | nil => exact absurd hmd hmne
    | cons c0 cs =>
      rw [List.cons_append, dropWs_cons_of_not_space (hws c0 cs hmd),
        ← List.cons_append, ← hmd, hdropm, hlit]
      rfl

theorem canonLookahead_cons_of_ne {lit : List Char} {c : Char}
    (h : ¬ (c = '\n')) (r : List Char) : canonLookahead lit (c :: r) = false := by
  unfold canonLookahead
  split
  · next heq => exact absurd heq.symm (by simp)
  · next r' heq => injection heq with h1 h2; exact absurd h1 h
  · rfl

theorem canonLookahead_newline (lit r : List Char) :
    canonLookahead lit ('\n' :: r)
      = (dropPrefixCI lit (dropStars2 (dropWs r))).isSome := rfl

theorem marker_head {m : String} {rest : List Char}
    (hm : m.data.map Char.toLower = '[' :: rest) :
    ∃ cs, m.data = '[' :: cs := by
  cases hmd : m.data with
  | nil => rw [hmd] at hm; simp at hm
  | cons c0 cs =>
    rw [hmd] at hm
    simp only [List.map_cons, List.cons.injEq] at hm
    have := toLower_eq_of_not_letter hm.1 (by decide)
    exact ⟨cs, by rw [this]⟩

theorem snoc_inj_last {l t1 t2 : List Char} {x y : Char}
    (h1 : l = t1 ++ [x]) (h2 : l = t2 ++ [y]) : x = y := by
  have e1 := snoc_getLast? h1
  have e2 := snoc_getLast? h2
  rw [e1] at e2
  exact Option.some.inj e2

theorem dropStar1_snoc_nl (t0 : List Char) :
    ∃ z0, dropStar1 (t0 ++ ['\n']) = z0 ++ ['\n'] := by
  cases t0 with
  | nil =>
    refine ⟨[], ?_⟩
    rw [show (([] : List Char) ++ ['\n']) = ['\n'] from rfl,
      dropStar1_cons_of_ne (by decide)]
  | cons c t0' =>
    by_cases hc : c = '*'
    · subst hc
      exact ⟨t0', rfl⟩
    · refine ⟨c :: t0', ?_⟩
      rw [List.cons_append, dropStar1_cons_of_ne hc]

theorem dropStars2_snoc_nl (t0 : List Char) :
    ∃ z0, dropStars2 (t0 ++ ['\n']) = z0 ++ ['\n'] := by
  obtain ⟨z1, h1⟩ := dropStar1_snoc_nl t0
  obtain ⟨z0, h0⟩ := dropStar1_snoc_nl z1
  exact ⟨z0, by unfold dropStars2; rw [h1, h0]⟩

theorem canonCaptureStart_none {lit s : List Char}
    (h : dropPrefixCI lit (dropStars2 s) = none) :
    canonCaptureStart lit s = none := by
  unfold canonCaptureStart
  rw [h]

theorem block_head {m : String} {b : Bool} (rest : List Char)
    (hmd : ∃ cs, m.data = '[' :: cs) :
    ∃ hd tl, starsL b ++ (m.data ++ rest) = hd :: tl ∧ isPySpace hd = false ∧
      starsL b ++ (m.data ++ rest) ≠ [] := by
  obtain ⟨cs, hcs⟩ := hmd
  cases b with
  | true =>
    refine ⟨'*', '*' :: (m.data ++ rest), by simp [starsL], by decide, ?_⟩
    simp [starsL]
  | false =>
    refine ⟨'[', cs ++ rest, ?_, by decide, ?_⟩
    · simp [starsL, hcs]
    · simp [starsL, hcs]

theorem dropStar1_eq_nil {l : List Char} (h : dropStar1 l = []) :
    l = [] ∨ l = ['*'] := by
  cases l with
  | nil => exact Or.inl rfl
  | cons c t =>
    by_cases hc : c = '*'
    · subst hc
      have ht : t = [] := h
      exact Or.inr (by rw [ht])
    · rw [dropStar1_cons_of_ne hc] at h
      exact absurd h (by simp)

theorem dropStars2_eq_nil {l : List Char} (h : dropStars2 l = []) :
    l = [] ∨ l = ['*'] ∨ l = ['*', '*'] := by
  have h' : dropStar1 (dropStar1 l) = [] := h
  rcases dropStar1_eq_nil h' with h1 | h1
  · rcases dropStar1_eq_nil h1 with h2 | h2
    · exact Or.inl h2
    · exact Or.inr (Or.inl h2)
  · cases l with
    | nil => simp [dropStar1] at h1
    | cons c t =>
      by_cases hc : c = '*'
      · subst hc
        have ht : t = ['*'] := h1
        exact Or.inr (Or.inr (by rw [ht]))
      · rw [dropStar1_cons_of_ne hc] at h1
        injection h1 with e1 _
        exact absurd e1 hc

/-- C2 (amended): for every well-formed canonical response text - a
[REFLECTION] marker, optionally wrapped in bold stars, optionally followed
by a colon, in any letter case, then the reflection text on the following
lines, then a [STATE] marker with the same optional decorations and the
state text - the parser returns exactly the text between the two markers
as the reflection, and as the state the text after the [STATE] marker up
to the end of its first line only (stripped), which equals the whole state
text exactly when that text is a single line. Side conditions of
well-formedness: the reflection text is non-empty, stripped, contains no
[STATE] marker and does not begin with a colon; the state text is
non-empty, stripped, and does not begin with a colon. -/
theorem canonical_parse_exact (mR mS R S : String) (bR cR bS cS : Bool)
    (hmR : mR.data.map Char.toLower = "[reflection]".data)
    (hmS : mS.data.map Char.toLower = "[state]".data)
    (hR : pyStripL R.data = R.data) (hRne : R.data ≠ [])
    (hRcol : R.data.head? ≠ some ':')
    (hRnoSt : containsCI stateLit R.data = false)
    (hS : pyStripL S.data = S.data) (hSne : S.data ≠ [])
    (hScol : S.data.head? ≠ some ':') :
    parse_reflection_and_state (canonicalText mR mS bR cR bS cS R S) =
      (R, ⟨pyStripL (S.data.takeWhile fun c => ¬ (c = '\n'))⟩) := by
  have hRcol' : ∀ t, R.data ≠ ':' :: t := fun t heq => hRcol (by rw [heq]; rfl)
  have hScol' : ∀ t, S.data ≠ ':' :: t := fun t heq => hScol (by rw [heq]; rfl)
  obtain ⟨mrc, hmrc⟩ := @marker_head mR ("reflection]".data) (by rw [hmR])
  obtain ⟨msc, hmsc⟩ := @marker_head mS ("state]".data) (by rw [hmS])
  have hmRne : mR.data ≠ [] := by rw [hmrc]; simp
  have hmSne : mS.data ≠ [] := by rw [hmsc]; simp
  have hmRstar : ∀ ch t, mR.data = ch :: t → ¬ (ch = '*') := by
    intro ch t heq
    rw [hmrc] at heq
    injection heq with e1 _
    rw [← e1]
    decide
  have hmSstar : ∀ ch t, mS.data = ch :: t → ¬ (ch = '*') := by
    intro ch t heq
    rw [hmsc] at heq
    injection heq with e1 _
    rw [← e1]
    decide
  have hmSws : ∀ ch t, mS.data = ch :: t → isPySpace ch = false := by
    intro ch t heq
    rw [hmsc] at heq
    injection heq with e1 _
    rw [← e1]
    decide
  have hRhead := stripped_head hR
  have hShead := stripped_head hS
  have hno7 : ∀ p ∈ stateLit, Char.toLower p ≠ '\n' := by decide
  have hTdef : (canonicalText mR mS bR cR bS cS R S).data
      = canonicalTextL mR.data mS.data bR cR bS cS R.data S.data := rfl
  -- Step A: the canonical text is already stripped.
  have hA : pyStripL (canonicalTextL mR.data mS.data bR cR bS cS R.data S.data)
      = canonicalTextL mR.data mS.data bR cR bS cS R.data S.data := by
    apply pyStripL_eq_self
    · intro c t heq
      obtain ⟨hd, tl, hhd, hhdns, _⟩ := @block_head mR bR
        (starsL bR ++ (colonL cR ++ '\n' ::
          (R.data ++ '\n' :: stateBlockL mS.data bS cS S.data))) ⟨mrc, hmrc⟩
      rw [show canonicalTextL mR.data mS.data bR cR bS cS R.data S.data
          = starsL bR ++ (mR.data ++ (starsL bR ++ (colonL cR ++ '\n' ::
            (R.data ++ '\n' :: stateBlockL mS.data bS cS S.data)))) from rfl,
        hhd] at heq
      injection heq with e1 _
      rw [← e1]
      exact hhdns
    · rcases List.eq_nil_or_concat S.data with h0 | ⟨S0, xS, hS0⟩
      · exact absurd h0 hSne
      · rw [List.concat_eq_append] at hS0
        have hTsnoc : canonicalTextL mR.data mS.data bR cR bS cS R.data S.data
            = (starsL bR ++ (mR.data ++ (starsL bR ++ (colonL cR ++ '\n' ::
              (R.data ++ '\n' :: (starsL bS ++ (mS.data ++ (starsL bS ++
                (colonL cS ++ '\n' :: S0))))))))) ++ [xS] := by
          rw [canonicalTextL, stateBlockL, hS0]
          simp [List.append_assoc]
        intro x t' heq
        rw [snoc_inj_last heq hTsnoc]
        exact stripped_last hS xS S0 hS0
  -- Step B: the reflection marker matches at position 0.
  have hBmatch : canonCaptureStart reflectionLit
      (canonicalTextL mR.data mS.data bR cR bS cS R.data S.data)
      = some (R.data ++ '\n' :: stateBlockL mS.data bS cS S.data) := by
    rw [show canonicalTextL mR.data mS.data bR cR bS cS R.data S.data
        = starsL bR ++ (mR.data ++ (starsL bR ++ (colonL cR ++ '\n' ::
          (R.data ++ '\n' :: stateBlockL mS.data bS cS S.data)))) from rfl]
    apply canonCaptureStart_block
    · rw [hmR]; decide
    · exact hmRne
    · exact hmRstar
    · intro ch t heq
      cases hRd : R.data with
      | nil => exact absurd hRd hRne
      | cons r0 rr =>
        rw [hRd, List.cons_append] at heq
        injection heq with e1 _
        rw [← e1]
        exact hRhead r0 rr hRd
    · intro t heq
      cases hRd : R.data with
      | nil =>
        rw [hRd, List.nil_append] at heq
        injection heq with e1 _
        exact absurd e1 (by decide)
      | cons r0 rr =>
        rw [hRd, List.cons_append] at heq
        injection heq with e1 _
        exact hRcol' rr (by rw [hRd, e1])
  have hB : canonReflMatch (canonicalTextL mR.data mS.data bR cR bS cS R.data S.data)
      = some (R.data ++ '\n' :: stateBlockL mS.data bS cS S.data) := by
    obtain ⟨hd, tl, hhd, _, hne⟩ := @block_head mR bR
      (starsL bR ++ (colonL cR ++ '\n' ::
        (R.data ++ '\n' :: stateBlockL mS.data bS cS S.data))) ⟨mrc, hmrc⟩
    exact searchPos_of_head hne hBmatch
  -- Step C: the reflection capture is exactly R.
  have hstop : canonLookahead stateLit
      ('\n' :: stateBlockL mS.data bS cS S.data) = true := by
    rw [canonLookahead_newline, stateBlockL]
    exact lookahead_block (by rw [hmS]; decide) hmSne hmSstar hmSws
  have hnostop : ∀ t, t ≠ [] → t <:+ R.data →
      canonLookahead stateLit (t ++ '\n' :: stateBlockL mS.data bS cS S.data)
        = false := by
    intro t htne hts
    cases t with
    | nil => exact absurd rfl htne
    | cons c t' =>
      by_cases hc : c = '\n'
      · subst hc
        rw [List.cons_append, canonLookahead_newline]
        rcases List.eq_nil_or_concat t' with ht0 | ⟨w, x, hwx⟩
        · subst ht0
          obtain ⟨u, hu⟩ := hts
          have := stripped_last hR '\n' u hu.symm
          exact absurd this (by decide)
        · rw [List.concat_eq_append] at hwx
          have hts' : t' <:+ R.data := by
            obtain ⟨u, hu⟩ := hts
            exact ⟨u ++ ['\n'], by rw [← hu]; simp⟩
          have hxns : isPySpace x = false := by
            obtain ⟨u, hu⟩ := hts'
            exact stripped_last hR x (u ++ w) (by rw [← hu, hwx]; simp)
          have hdwne : dropWs t' ≠ [] := dropWs_ne_nil_of_last hwx hxns
          rw [dropWs_append_of_ne hdwne]
          by_cases hds : dropStars2 (dropWs t') = []
          · rcases dropStars2_eq_nil hds with h0 | h0 | h0
            · exact absurd h0 hdwne
            · rw [h0, show (['*'] ++ '\n' :: stateBlockL mS.data bS cS S.data
                  : List Char) = '*' :: '\n' :: stateBlockL mS.data bS cS S.data
                  from rfl,
                show dropStars2 ('*' :: '\n' :: stateBlockL mS.data bS cS S.data)
                  = '\n' :: stateBlockL mS.data bS cS S.data from rfl,
                show stateLit = '[' :: "STATE]".data from rfl,
                dropPrefixCI_cons_ne (by decide)]
              rfl
            · rw [h0, show (['*', '*'] ++ '\n' :: stateBlockL mS.data bS cS S.data
                  : List Char)
                  = '*' :: '*' :: '\n' :: stateBlockL mS.data bS cS S.data from rfl,
                show dropStars2 ('*' :: '*' :: '\n' ::
                    stateBlockL mS.data bS cS S.data)
                  = '\n' :: stateBlockL mS.data bS cS S.data from rfl,
                show stateLit = '[' :: "STATE]".data from rfl,
                dropPrefixCI_cons_ne (by decide)]
              rfl
          · rw [dropStars2_append hds]
            have hsuf : dropStars2 (dropWs t') <:+ R.data :=
              ((dropStars2_suffix _).trans (List.dropWhile_suffix _)).trans hts'
            rw [dropPrefixCI_append_newline hno7]
            exact containsCI_suffix_none hRnoSt hsuf
      · rw [List.cons_append]
        exact canonLookahead_cons_of_ne hc _
  have hC : captureUntil (canonLookahead stateLit)
      (R.data ++ '\n' :: stateBlockL mS.data bS cS S.data) = R.data :=
    captureUntil_append hnostop hstop
  -- Step D: the leftmost match of the state marker is the separator block.
  have hPREsnoc : starsL bR ++ (mR.data ++ (starsL bR ++ (colonL cR ++ '\n' ::
      (R.data ++ ['\n']))))
      = (starsL bR ++ (mR.data ++ (starsL bR ++ (colonL cR ++ '\n' :: R.data))))
        ++ ['\n'] := by
    simp [List.append_assoc]
  have hcontPRE : containsCI stateLit (starsL bR ++ (mR.data ++ (starsL bR ++
      (colonL cR ++ '\n' :: (R.data ++ ['\n']))))) = false := by
    have hsplit2 : starsL bR ++ (mR.data ++ (starsL bR ++ (colonL cR ++ '\n' ::
        (R.data ++ ['\n']))))
        = (starsL bR ++ (mR.data ++ (starsL bR ++ colonL cR))) ++ '\n' ::
          (R.data ++ ['\n']) := by
      simp [List.append_assoc]
    rw [hsplit2, containsCI_append_newline hno7]
    have h2 : containsCI stateLit (R.data ++ ['\n']) = false := by
      rw [show (R.data ++ ['\n'] : List Char) = R.data ++ '\n' :: [] from rfl,
        containsCI_append_newline hno7, hRnoSt]
      decide
    have hsm : (starsL bR).map Char.toLower = starsL bR := by
      cases bR <;> decide
    have hcm : (colonL cR).map Char.toLower = colonL cR := by
      cases cR <;> decide
    have h1 : containsCI stateLit (starsL bR ++ (mR.data ++ (starsL bR ++
        colonL cR))) = false := by
      rw [← containsCI_map, List.map_append, List.map_append, List.map_append,
        hsm, hcm, hmR]
      cases bR <;> cases cR <;> decide
    rw [h1, h2]
    rfl
  have hfail : ∀ t, t ≠ [] → t <:+ starsL bR ++ (mR.data ++ (starsL bR ++
      (colonL cR ++ '\n' :: (R.data ++ ['\n'])))) →
      canonCaptureStart stateLit (t ++ stateBlockL mS.data bS cS S.data)
        = none := by
    intro t htne hts
    rcases List.eq_nil_or_concat t with h0 | ⟨t0, y, hty⟩
    · exact absurd h0 htne
    · rw [List.concat_eq_append] at hty
      have hy : y = '\n' := by
        obtain ⟨u, hu⟩ := hts
        have h1 : starsL bR ++ (mR.data ++ (starsL bR ++ (colonL cR ++ '\n' ::
            (R.data ++ ['\n'])))) = (u ++ t0) ++ [y] := by
          rw [← hu, hty, List.append_assoc]
        exact snoc_inj_last h1 hPREsnoc
      subst hy
      obtain ⟨z0, hz0⟩ := dropStars2_snoc_nl t0
      apply canonCaptureStart_none
      have hdne : dropStars2 t ≠ [] := by
        rw [hty, hz0]
        simp
      rw [hty] at hdne ⊢
      rw [dropStars2_append hdne, hz0,
        show ((z0 ++ ['\n']) ++ stateBlockL mS.data bS cS S.data : List Char)
          = z0 ++ '\n' :: stateBlockL mS.data bS cS S.data by simp]
      cases hv : dropPrefixCI stateLit
          (z0 ++ '\n' :: stateBlockL mS.data bS cS S.data) with
      | none => rfl
      | some r =>
        exfalso
        have hiso : (dropPrefixCI stateLit z0).isSome = true := by
          rw [← dropPrefixCI_append_newline hno7 z0
            (stateBlockL mS.data bS cS S.data), hv]
          rfl
        cases hv2 : dropPrefixCI stateLit z0 with
        | none => rw [hv2] at hiso; simp at hiso
        | some r2 =>
          have hv3 := dropPrefixCI_some_append hv2 ['\n']
          have hsuf : z0 ++ ['\n'] <:+ starsL bR ++ (mR.data ++ (starsL bR ++
              (colonL cR ++ '\n' :: (R.data ++ ['\n'])))) := by
            rw [← hz0]
            exact (dropStars2_suffix _).trans (hty ▸ hts)
          have hcontra := containsCI_suffix_none hcontPRE hsuf
          rw [hv3] at hcontra
          simp at hcontra
  have hD : canonStateMatch (canonicalTextL mR.data mS.data bR cR bS cS
      R.data S.data) = some S.data := by
    rw [show canonicalTextL mR.data mS.data bR cR bS cS R.data S.data
        = (starsL bR ++ (mR.data ++ (starsL bR ++ (colonL cR ++ '\n' ::
          (R.data ++ ['\n']))))) ++ stateBlockL mS.data bS cS S.data by
        rw [canonicalTextL]
        simp [List.append_assoc]]
    rw [show canonStateMatch ((starsL bR ++ (mR.data ++ (starsL bR ++
        (colonL cR ++ '\n' :: (R.data ++ ['\n']))))) ++
        stateBlockL mS.data bS cS S.data)
        = searchPos (canonCaptureStart stateLit) ((starsL bR ++ (mR.data ++
          (starsL bR ++ (colonL cR ++ '\n' :: (R.data ++ ['\n']))))) ++
          stateBlockL mS.data bS cS S.data) from rfl]
    rw [searchPos_append hfail]
    obtain ⟨hd, tl, hhd, _, hne⟩ := @block_head mS bS
      (starsL bS ++ (colonL cS ++ '\n' :: S.data)) ⟨msc, hmsc⟩
    refine searchPos_of_head (by rw [stateBlockL]; exact hne) ?_
    rw [show stateBlockL mS.data bS cS S.data
        = starsL bS ++ (mS.data ++ (starsL bS ++ (colonL cS ++ '\n' :: S.data)))
        from rfl]
    apply canonCaptureStart_block
    · rw [hmS]; decide
    · exact hmSne
    · exact hmSstar
    · intro ch t heq
      exact hShead ch t heq
    · exact hScol'
  -- Assemble.
  rw [show parse_reflection_and_state (canonicalText mR mS bR cR bS cS R S)
      = (let raw := pyStripL (canonicalText mR mS bR cR bS cS R S).data;
        match canonReflMatch raw, canonStateMatch raw with
        | some rc, some sc =>
          (⟨pyStripL (captureUntil (canonLookahead stateLit) rc)⟩,
           ⟨pyStripL (captureToEol sc)⟩)
        | _, _ =>
          match legacyReflMatch raw, legacyStateMatch raw with
          | some rc, some sc =>
            (⟨pyStripL (captureUntil (legacyLookahead legacyStateLit) rc)⟩,
             ⟨pyStripL (captureToEol sc)⟩)
          | _, _ =>
            let r := match oldReactionMatch raw with
              | some rc => pyStripL (captureUntil
                  (legacyLookahead internalStateLit) rc)
              | none => raw
            let s := match oldStateMatch raw with
              | some sc => pyStripL (captureToEol sc)
              | none => []
            (⟨r⟩, ⟨s⟩)) from rfl]
  simp only [hTdef, hA, hB, hD, hC]
  rw [hR]
  rfl

/-- Counterexample to C2 as stated: for a canonical response whose state
text spans two lines, the parser returns only the first line of the state
text, not everything to the end of the text: the MULTILINE flag on the
state regex makes its lazy capture stop at the first newline. -/
theorem state_truncates_at_newline :
    parse_reflection_and_state "[REFLECTION]\nr\n[STATE]\na\nb" ≠ ("r", "a\nb") := by
  decide

/-- Witness for C2 on a concrete bold-decorated, mixed-case canonical
response with a two-line state text. -/
theorem canonical_parse_exact_witness :
    ("[Reflection]").data.map Char.toLower = "[reflection]".data ∧
    parse_reflection_and_state
        (canonicalText "[Reflection]" "[STATE]" true true false false
          "I pause before it." "calm and open\nsecond line")
      = ("I pause before it.",
         ⟨pyStripL (("calm and open\nsecond line").data.takeWhile
           fun c => ¬ (c = '\n'))⟩) :=
  ⟨by decide,
    canonical_parse_exact "[Reflection]" "[STATE]" "I pause before it."
      "calm and open\nsecond line" true true false false
      (by decide) (by decide) (by decide) (by decide) (by decide) (by decide)
      (by decide) (by decide) (by decide)⟩

/-- Witness for C9 at index 1 of a concrete image sequence. -/
theorem sequence_context_witness :
    1 < wImages.length ∧
    build_sequence_context wImages 1 =
      some (if 1 = 0 then "" else
        String.intercalate "\n" ("Images shown before the current one:" ::
          ((wImages.take 1).enum.map fun p => sequenceLine p.1 p.2) ++
          ["Current image (" ++ toString (1 + 1) ++ " of " ++
            toString wImages.length ++ "):",
           sequenceLine 1 (wImages.getD 1 ⟨"", "", none⟩)])) :=
  ⟨by decide, sequence_context_lists_priors wImages 1 (by decide)⟩

end StatefulViewers
